import Mathlib

/-!
# Verification of the task-manager backend (src/backend/index.js)

A shallow embedding of the hierarchical-task REST backend.  The program is a
single Express application over a MySQL pool; we embed the data that the
handlers manipulate (the `projects` and `tasks` tables) as plain Lean lists
and each mutating handler as a function from store to store.  Transactions
are embedded by their observable effect: a handler that rolls back returns
the store it was given.

Modeling conventions, shared by all definitions below:

* Identifiers (`id`, `projectID`, `parentID`, `level1ID` .. `level4ID`) are
  natural numbers.  The JavaScript handlers receive route parameters as
  strings and compare them to numeric columns with coercing equality (the
  source comments this explicitly: "Using == for type coercion"), and SQL
  likewise coerces, so for those comparisons the embedding identifies a
  route parameter with the number it denotes.  The one place where the
  string-ness of the parameter is observable is the `Set` of
  `DELETE /tasks/:id`, whose `add`/`has`/`size` do **not** coerce; there the
  embedding keeps the string element explicit (see `deleteClosureNumeric`
  and `deleteTask`).
* `JSON.parse` and `JSON.stringify` are platform builtins, not code of this
  repository; they are passed in as parameters (`jparse : String → Option JVal`,
  with `none` standing for a thrown `SyntaxError`, and `jser : JVal → String`).
* MySQL `AUTO_INCREMENT` is embedded as (maximum existing task id) + 1, which
  preserves the one property the handlers rely on: freshness of the new id.
* Textual columns that no claim mentions (`description`, `wsID`, `userID`,
  the three assignee columns, `priority`, `dueDate`, `comments`, `taskType`,
  `isExceeded`, `createdAt`, `modifiedAt`) are omitted from the row type.
  Every handler copies them verbatim from request to row or row to row, so
  they are invariant under all the operations studied here.  The columns
  that the claims do mention are kept exactly as stored.
-/

/-- A JSON document (the decoded form of the serialized `estPrevHours` and
`info` columns).  Numbers are embedded as integers: the program never does
arithmetic on decoded values, it only stores and reloads them. -/
inductive JVal : Type where
  | null : JVal
  | bool : Bool → JVal
  | num : Int → JVal
  | str : String → JVal
  | arr : List JVal → JVal
  | obj : List (String × JVal) → JVal
deriving Repr

/-- A JavaScript value as it arrives from the database driver in a row field:
`undefined`, `null`, a number, a boolean, a string, or an already-decoded
object/array. -/
inductive JSVal : Type where
  | jundef : JSVal
  | jnull : JSVal
  | jnum : Int → JSVal
  | jbool : Bool → JSVal
  | jstr : String → JSVal
  | jobj : JVal → JSVal
deriving Repr

/-- JavaScript truthiness of a decoded JSON value (used for `info || {}`). -/
def JVal.truthy : JVal → Bool
  | .null => false
  | .bool b => b
  | .num n => n != 0
  | .str s => s != ""
  | .arr _ => true
  | .obj _ => true

/-- `safeJsonParse(jsonString, defaultValue)` from index.js lines 643-667:
returns objects unchanged, substitutes the default for non-strings, empty
strings, strings on which `JSON.parse` throws, and strings that parse to
`null`.  (`JSON.parse` never yields `undefined`, so the `parsed === undefined`
arm of the source collapses into the `null` arm; `jsonString.trim() === ''`
holds exactly when every character of the string is whitespace, which is how
the test is written here.) -/
def safeJsonParse (jparse : String → Option JVal) (jsonString : JSVal)
    (defaultValue : JVal) : JVal :=
  match jsonString with
  | .jobj j => j
  | .jstr s =>
      if s.data.all (fun c => c.isWhitespace) then defaultValue
      else
        match jparse s with
        | none => defaultValue
        | some .null => defaultValue
        | some v => v
  | _ => defaultValue

/-- A row of the `tasks` table (the columns the claims are about; see the
module comment for the omitted pass-through columns). `estPrevHours` and
`info` hold the raw column value as the driver delivers it. -/
structure Row : Type where
  id : Nat
  projectID : Nat
  name : String
  taskLevel : Nat
  status : String
  parentID : Nat
  level1ID : Nat
  level2ID : Nat
  level3ID : Nat
  level4ID : Nat
  estHours : Int
  estPrevHours : JSVal
  actHours : Int
  info : JSVal
deriving Repr

/-- A row of the `projects` table.  Only the primary key takes part in any
claim; the scalar columns are pass-through. -/
structure ProjectRow : Type where
  id : Nat
deriving Repr

/-- The relational store: the two tables. -/
structure Store : Type where
  projects : List ProjectRow
  tasks : List Row
deriving Repr

/-- The error responses the handlers produce (HTTP status + message). -/
inductive ApiErr : Type where
  | notFound : String → ApiErr
  | badRequest : String → ApiErr
  | serverError : String → ApiErr
deriving Repr

/-- `row[levelMap[K]]`: the level-K ancestor column of a row (K ∈ 1..4). -/
def levelId (r : Row) : Nat → Nat
  | 1 => r.level1ID
  | 2 => r.level2ID
  | 3 => r.level3ID
  | 4 => r.level4ID
  | _ => 0

/-- The body of `POST /su/backend/tasks` after JSON destructuring, with the
route defaults applied (`taskLevel = 1`, `status = 'todo'`, `parentID = 0`,
`estHours = 0`, `estPrevHours = []`, `actHours = 0`, `info = {}`).
An absent `parentID` therefore arrives here as 0. -/
structure CreateInput : Type where
  projectID : Nat
  name : String
  taskLevel : Nat
  status : String
  parentID : Nat
  estHours : Int
  estPrevHours : JVal
  actHours : Int
  info : JVal
deriving Repr

/-- MySQL AUTO_INCREMENT, embedded as max existing id + 1 (fresh and positive,
which is all the handler relies on). -/
def nextTaskId (tasks : List Row) : Nat :=
  (tasks.foldr (fun t m => max t.id m) 0) + 1

/-- The four ancestor values a child inherits from its parent (lines
317-328): `parent.levelKID || (parent.taskLevel === K ? parent.id : 0)` for
each K, after which the child's own level is re-zeroed (it is filled in
after insertion, once the generated id is known). -/
def childLevels (inp : CreateInput) (parent : Row) : Nat × Nat × Nat × Nat :=
  let l1 := if parent.level1ID != 0 then parent.level1ID
            else if parent.taskLevel == 1 then parent.id else 0
  let l2 := if parent.level2ID != 0 then parent.level2ID
            else if parent.taskLevel == 2 then parent.id else 0
  let l3 := if parent.level3ID != 0 then parent.level3ID
            else if parent.taskLevel == 3 then parent.id else 0
  let l4 := if parent.level4ID != 0 then parent.level4ID
            else if parent.taskLevel == 4 then parent.id else 0
  let l2 := if inp.taskLevel == 2 then 0 else l2
  let l3 := if inp.taskLevel == 3 then 0 else l3
  let l4 := if inp.taskLevel == 4 then 0 else l4
  (l1, l2, l3, l4)

/-- The row handed to `INSERT INTO tasks ...` (lines 333-350). -/
def insertedRow (jser : JVal → String) (inp : CreateInput)
    (newTaskId l1 l2 l3 l4 : Nat) : Row :=
  { id := newTaskId, projectID := inp.projectID, name := inp.name
    taskLevel := inp.taskLevel, status := inp.status
    parentID := inp.parentID
    level1ID := l1, level2ID := l2, level3ID := l3, level4ID := l4
    estHours := inp.estHours
    estPrevHours := .jstr (jser inp.estPrevHours)
    actHours := inp.actHours
    info := .jstr (jser (if inp.info.truthy then inp.info else .obj [])) }

/-- The post-insert self-pointer patch (lines 354-379): set the ancestor
column of the task's own level to the generated id (no-op for a level
outside 1..4, where the source has no branch). -/
def patchSelf (taskLevel newTaskId : Nat) (t : Row) : Row :=
  if taskLevel == 1 then { t with level1ID := newTaskId }
  else if taskLevel == 2 then { t with level2ID := newTaskId }
  else if taskLevel == 3 then { t with level3ID := newTaskId }
  else if taskLevel == 4 then { t with level4ID := newTaskId }
  else t

/-- `POST /su/backend/tasks` (index.js lines 281-420).  Checks the project,
resolves the parent when `taskLevel > 1 && parentID` (JS truthiness of a
numeric `parentID` is `≠ 0`), inherits the ancestor columns with the
`parent.levelKID || (parent.taskLevel === K ? parent.id : 0)` fallbacks,
zeroes the new task's own level, inserts, then patches the self-pointer
`level{taskLevel}ID := newTaskId` in a second UPDATE inside the same
transaction, and returns the row read back by id.  A rollback leaves the
store unchanged, so every error path returns the input store.  (The response
decoding of lines 390-407 only re-encodes the returned row and is not part
of any claim; the stored row is returned as is.)

`insertAndPatch` is the straight-line tail of the handler after the early
error returns: INSERT, self-pointer UPDATE, read back by id. -/
def patchedTasks (jser : JVal → String) (st : Store) (inp : CreateInput)
    (l1 l2 l3 l4 : Nat) : List Row :=
  let newTaskId := nextTaskId st.tasks
  let inserted : Row := insertedRow jser inp newTaskId l1 l2 l3 l4
  let afterInsert := st.tasks ++ [inserted]
  -- UPDATE tasks SET level{taskLevel}ID = newTaskId WHERE id = newTaskId
  afterInsert.map (fun t =>
    if t.id == newTaskId then patchSelf inp.taskLevel newTaskId t else t)

def insertAndPatch (jser : JVal → String) (st : Store) (inp : CreateInput)
    (l1 l2 l3 l4 : Nat) : Store × Except ApiErr Row :=
  let newTaskId := nextTaskId st.tasks
  let patched := patchedTasks jser st inp l1 l2 l3 l4
  match patched.find? (fun t => t.id == newTaskId) with
  | none => (st, .error (.serverError "Failed to create task"))
  | some newTask => ({ st with tasks := patched }, .ok newTask)

def createTask (jser : JVal → String) (st : Store) (inp : CreateInput) :
    Store × Except ApiErr Row :=
  if (st.projects.filter (fun p => p.id == inp.projectID)).length == 0 then
    (st, .error (.notFound "Project not found"))
  else
    if inp.taskLevel > 1 && inp.parentID != 0 then
      match st.tasks.find? (fun t => t.id == inp.parentID) with
      | none => (st, .error (.badRequest "Parent task not found"))
      | some parent =>
          match childLevels inp parent with
          | (l1, l2, l3, l4) => insertAndPatch jser st inp l1 l2 l3 l4
    else insertAndPatch jser st inp 0 0 0 0

/-- The body of `PUT /su/backend/tasks/:id`: the allow-listed partial fields,
`none` meaning the key is absent from the request (`updates[field] ===
undefined`).  Fields of the allow-list whose columns are pass-through
(`description`, assignees, `priority`, `dueDate`, `comments`, `taskType`,
`expanded`) behave exactly like `name` — a plain overwrite — and are
represented by it. -/
structure UpdateInput : Type where
  name : Option String := none
  status : Option String := none
  estHours : Option Int := none
  actHours : Option Int := none
deriving Repr

/-- Whether the PUT body contains at least one allow-listed field
(`updateFields.length === 0` check; the `estPrevHours` clause of lines
509-513 is only added when `estHours` is, so it never changes emptiness). -/
def UpdateInput.hasField (u : UpdateInput) : Bool :=
  u.name.isSome || u.status.isSome || u.estHours.isSome || u.actHours.isSome

/-- The single row produced by the dynamically built
`UPDATE tasks SET ... WHERE id = ?`: each present field overwrites the
column, and — lines 509-513 — when `estHours` is present and the current
task's level is > 1, `estPrevHours` is overwritten with
`JSON.stringify([currentTask.estHours])`. -/
def applyUpdates (jser : JVal → String) (currentTask : Row) (u : UpdateInput) :
    Row :=
  { currentTask with
    name := u.name.getD currentTask.name
    status := u.status.getD currentTask.status
    estHours := u.estHours.getD currentTask.estHours
    actHours := u.actHours.getD currentTask.actHours
    estPrevHours :=
      if u.estHours.isSome && currentTask.taskLevel > 1 then
        .jstr (jser (.arr [.num currentTask.estHours]))
      else currentTask.estPrevHours }

/-- The task as serialized into the PUT response: the updated row with
`estPrevHours` and `info` replaced by their decoded values. -/
structure DecodedTask : Type where
  row : Row
  estPrevHours : JVal
  info : JVal
deriving Repr

/-- The response decoding of `PUT /su/backend/tasks/:id` (lines 545-556).
Unlike every other read path this one calls the raw, throwing `JSON.parse`:

* `estPrevHours`: a string column is fed to `JSON.parse` directly (an empty
  or malformed string throws, `error` here);
* `info`: a string column is fed to `JSON.parse(info || '{}')` (an empty
  string becomes `'{}'`, but a malformed non-empty string still throws);
* non-string column values fall back to `x || []` / `x || {}`.

The surrounding `try` turns a throw into the catch-all 500 response. -/
def putDecode (jparse : String → Option JVal) (r : Row) :
    Except ApiErr DecodedTask := do
  let prev : JVal ←
    match r.estPrevHours with
    | .jstr s =>
        match jparse s with
        | none => .error (.serverError "Failed to update task")
        | some v => .ok v
    | .jobj j => .ok j
    | _ => .ok (.arr [])
  let inf : JVal ←
    match r.info with
    | .jstr s =>
        match jparse (if s == "" then "{}" else s) with
        | none => .error (.serverError "Failed to update task")
        | some v => .ok v
    | .jobj j => .ok j
    | _ => .ok (.obj [])
  .ok { row := r, estPrevHours := prev, info := inf }

/-- `PUT /su/backend/tasks/:id` (index.js lines 472-564).  Loads the task,
rejects an empty allow-listed field set, executes the UPDATE (every row whose
id matches, as the SQL does), reads the row back, commits, and then decodes
the response with `putDecode`.  A decode throw lands in the catch block
*after* the commit: the rollback there is a no-op on a committed transaction,
so the store keeps the update while the caller receives the 500 error. -/
def updateTask (jser : JVal → String) (jparse : String → Option JVal)
    (st : Store) (taskId : Nat) (u : UpdateInput) :
    Store × Except ApiErr DecodedTask :=
  match st.tasks.find? (fun t => t.id == taskId) with
  | none => (st, .error (.notFound "Task not found"))
  | some currentTask =>
      if !u.hasField then (st, .error (.badRequest "No valid fields to update"))
      else
        let updatedRow := applyUpdates jser currentTask u
        let newTasks := st.tasks.map (fun t =>
          if t.id == taskId then updatedRow else t)
        match newTasks.find? (fun t => t.id == taskId) with
        | none => (st, .error (.notFound "Task not found after update"))
        | some readBack =>
            -- the commit happens before the response decode, so a decode
            -- throw (500) does not undo the update
            ({ st with tasks := newTasks }, putDecode jparse readBack)

/-- One `allTasks.forEach` of the closure's do-while loop (lines 612-619):
scan the project's rows in order, adding `task.id` whenever the level-field
of the row is already in the (evolving) set and the id is not. -/
def closurePass (fld : Row → Nat) : List Row → Finset ℕ → Finset ℕ
  | [], s => s
  | t :: ts, s =>
      closurePass fld ts (if fld t ∈ s ∧ t.id ∉ s then insert t.id s else s)

/-- The "first pass" of lines 603-608: add the ids of rows whose level-field
equals the deleted task's id. -/
def closureFirstPass (fld : Row → Nat) (taskId : Nat) :
    List Row → Finset ℕ → Finset ℕ
  | [], s => s
  | t :: ts, s =>
      closureFirstPass fld taskId ts
        (if fld t == taskId then insert t.id s else s)

/-- The do-while loop of lines 611-619: run passes until one adds nothing
(sizes compared, as in the source).  The fuel is the pass count; the handler
supplies `allTasks.length + 1`, which is enough to reach the fixed point
because every non-final pass strictly grows the set inside a universe of at
most `allTasks.length + 1` ids (proved below). -/
def closureLoop (fld : Row → Nat) (allTasks : List Row) :
    Finset ℕ → Nat → Finset ℕ
  | s, 0 => s
  | s, fuel + 1 =>
      let s' := closurePass fld allTasks s
      if s'.card = s.card then s' else closureLoop fld allTasks s' fuel

/-- The *numeric* contents of `idsToDelete`.  In the handler,
`idsToDelete = new Set([taskId])` is seeded with `req.params.id`, which
Express delivers as a **string**, while every id the passes add
(`idsToDelete.add(task.id)`) is a **number** from the driver.  `Set.add`,
`Set.has` and `Set.size` compare with SameValueZero — no coercion — so the
set is always {the string parameter} ∪ {numeric ids}, the membership tests
of the passes only ever see the numeric part (they probe with numbers), and
the string never collides with a number.  This definition computes the
numeric part: seeded empty, the first pass (whose `==` on the other hand
*does* coerce, as the source comments), then the do-while loop.  The loop's
size comparison is on `Set.size` = numeric card + 1, which stabilizes
exactly when the numeric card does. -/
def deleteClosureNumeric (fld : Row → Nat) (taskId : Nat)
    (allTasks : List Row) : Finset ℕ :=
  closureLoop fld allTasks
    (closureFirstPass fld taskId allTasks ∅)
    (allTasks.length + 1)

/-- `DELETE /su/backend/tasks/:id` (index.js lines 567-640).  Loads the task
(404 if absent), maps its level to the ancestor column (400 on a level
outside 1..4), loads `id` and that column for every row of the task's
project, computes the closure, and deletes every collected id in one
statement, answering with the size of the set.

Per `deleteClosureNumeric`, the set is the string route parameter plus the
numeric closure: the SQL `IN` list coerces the string back onto the rows
whose id is `taskId`, so the rows removed are those with
`id ∈ insert taskId numeric`; `deletedCount = idsToDelete.size` counts the
string as an extra element, giving `numeric.card + 1`. -/
def deleteTask (st : Store) (taskId : Nat) : Store × Except ApiErr Nat :=
  match st.tasks.find? (fun t => t.id == taskId) with
  | none => (st, .error (.notFound "Task not found"))
  | some taskToDelete =>
      let projectId := taskToDelete.projectID
      if taskToDelete.taskLevel < 1 || taskToDelete.taskLevel > 4 then
        (st, .error (.badRequest "Invalid task level"))
      else
        let fld := fun r => levelId r taskToDelete.taskLevel
        let allTasks := st.tasks.filter (fun t => t.projectID == projectId)
        let numericIds := deleteClosureNumeric fld taskId allTasks
        ({ st with tasks :=
            st.tasks.filter (fun r => r.id ∉ insert taskId numericIds) },
         .ok (numericIds.card + 1))

/-- `DELETE /su/backend/projects/:id` (index.js lines 241-267): inside one
transaction, delete the project's tasks, then the project row; if no project
row was deleted, roll back (restoring the tasks) and answer 404. -/
def deleteProject (st : Store) (projectId : Nat) : Store × Except ApiErr Unit :=
  let affectedRows := (st.projects.filter (fun p => p.id == projectId)).length
  if affectedRows == 0 then
    (st, .error (.notFound "Project not found"))
  else
    ({ projects := st.projects.filter (fun p => !(p.id == projectId))
       tasks := st.tasks.filter (fun t => !(t.projectID == projectId)) },
     .ok ())

/-- One iteration of the fixed-point closure exactly as the specification
words it: "add every task whose level{L}ID is already in the set". -/
def specStep (fld : Row → Nat) (tasks : List Row) (S : Finset ℕ) : Finset ℕ :=
  S ∪ ((tasks.filter (fun r => fld r ∈ S)).map (fun r => r.id)).toFinset

/-- Iterate `specStep` "until an iteration adds nothing". -/
def specIter (fld : Row → Nat) (tasks : List Row) : Finset ℕ → Nat → Finset ℕ
  | S, 0 => S
  | S, n + 1 =>
      let next := specStep fld tasks S
      if next = S then S else specIter fld tasks next n

/-- The specification's fixed-point closure: "start from t.id, repeatedly add
every task whose level{L}ID is already in the set, until an iteration adds
nothing".  `tasks.length + 1` iterations always reach the fixed point. -/
def specClosure (fld : Row → Nat) (tasks : List Row) (startId : Nat) :
    Finset ℕ :=
  specIter fld tasks {startId} (tasks.length + 1)

/-- "S contains the start id and is closed under the child step":
the defining property of the fixed-point closure. -/
def ClosedUnder (fld : Row → Nat) (tasks : List Row) (S : Finset ℕ) : Prop :=
  ∀ r ∈ tasks, fld r ∈ S → r.id ∈ S

/-- The nodes produced by `buildTaskHierarchy` (lines 193-222).  Each node is
the stored row spread into a fresh object with the numeric id restringified
(`id: task.id.toString()` — `idStr` below; the embedding also keeps the
underlying row, whose redundant numeric id makes the round-trip statement
strictly stronger), the two serialized columns decoded with `safeJsonParse`,
and the children of the next level attached under the level-specific field.
The dynamically-typed recursion bottoms out at level 4, so its four
instantiations are embedded as four node shapes, `L4Node` up to `L1Node`.
Levels 2-4 also carry a constant `subtasks: []` field, omitted here because
it is identically empty. -/
structure L4Node : Type where
  row : Row
  idStr : String
  estPrevHours : JVal
  info : JVal
deriving Repr

/-- A level-3 node: children sit in `actionItems`... no — in
`subactionItems` (level 3 → 4). -/
structure L3Node : Type where
  row : Row
  idStr : String
  estPrevHours : JVal
  info : JVal
  subactionItems : List L4Node
deriving Repr

/-- A level-2 node: children sit in `actionItems` (level 2 → 3). -/
structure L2Node : Type where
  row : Row
  idStr : String
  estPrevHours : JVal
  info : JVal
  actionItems : List L3Node
deriving Repr

/-- A level-1 node: children sit in `subtasks` (level 1 → 2). -/
structure L1Node : Type where
  row : Row
  idStr : String
  estPrevHours : JVal
  info : JVal
  subtasks : List L2Node
deriving Repr

/-- `buildTaskHierarchy(parentId, 4)`: the level-4 instantiation of the
recursion — filter on `(parentID, taskLevel)`, decorate, no further
recursion. -/
def buildTaskHierarchy4 (jparse : String → Option JVal) (allTasks : List Row)
    (parentId : Nat) : List L4Node :=
  (allTasks.filter (fun t => t.parentID == parentId && t.taskLevel == 4)).map
    (fun t =>
      { row := t, idStr := toString t.id
        estPrevHours := safeJsonParse jparse t.estPrevHours (.arr [])
        info := safeJsonParse jparse t.info (.obj []) })

/-- `buildTaskHierarchy(parentId, 3)`: level-3 instantiation, recursing into
`(task.id, 4)` for `subactionItems`. -/
def buildTaskHierarchy3 (jparse : String → Option JVal) (allTasks : List Row)
    (parentId : Nat) : List L3Node :=
  (allTasks.filter (fun t => t.parentID == parentId && t.taskLevel == 3)).map
    (fun t =>
      { row := t, idStr := toString t.id
        estPrevHours := safeJsonParse jparse t.estPrevHours (.arr [])
        info := safeJsonParse jparse t.info (.obj [])
        subactionItems := buildTaskHierarchy4 jparse allTasks t.id })

/-- `buildTaskHierarchy(parentId, 2)`: level-2 instantiation, recursing into
`(task.id, 3)` for `actionItems`. -/
def buildTaskHierarchy2 (jparse : String → Option JVal) (allTasks : List Row)
    (parentId : Nat) : List L2Node :=
  (allTasks.filter (fun t => t.parentID == parentId && t.taskLevel == 2)).map
    (fun t =>
      { row := t, idStr := toString t.id
        estPrevHours := safeJsonParse jparse t.estPrevHours (.arr [])
        info := safeJsonParse jparse t.info (.obj [])
        actionItems := buildTaskHierarchy3 jparse allTasks t.id })

/-- `buildTaskHierarchy()` with the default arguments `(parentId = 0,
level = 1)`: the tree the PUT-project response attaches as `tasks`. -/
def buildTaskHierarchy (jparse : String → Option JVal) (allTasks : List Row)
    (parentId : Nat := 0) : List L1Node :=
  (allTasks.filter (fun t => t.parentID == parentId && t.taskLevel == 1)).map
    (fun t =>
      { row := t, idStr := toString t.id
        estPrevHours := safeJsonParse jparse t.estPrevHours (.arr [])
        info := safeJsonParse jparse t.info (.obj [])
        subtasks := buildTaskHierarchy2 jparse allTasks t.id })

/-- Modelled from the spec: the inverse direction `flatten(tree)` of §8's
round-trip property (the source only materializes trees, it never flattens
one), emitting each node's stored row before its descendants' rows. -/
def flattenL4 (n : L4Node) : List Row := [n.row]

/-- Flatten a level-3 subtree into rows, node row first. -/
def flattenL3 (n : L3Node) : List Row :=
  n.row :: n.subactionItems.flatMap flattenL4

/-- Flatten a level-2 subtree into rows, node row first. -/
def flattenL2 (n : L2Node) : List Row :=
  n.row :: n.actionItems.flatMap flattenL3

/-- Flatten a level-1 subtree into rows, node row first. -/
def flattenL1 (n : L1Node) : List Row :=
  n.row :: n.subtasks.flatMap flattenL2

/-- Flatten a forest of level-1 trees. -/
def flattenForest (ts : List L1Node) : List Row := ts.flatMap flattenL1

/-- Well-formedness of a level-4 node under a parent id: the stored row
carries the level and parent pointer of its position, `idStr` is the
stringified id, and the decoded fields are the `safeJsonParse` decodings of
the stored ones. -/
def WF4 (jparse : String → Option JVal) (parentId : Nat) (n : L4Node) : Prop :=
  n.row.taskLevel = 4 ∧ n.row.parentID = parentId ∧
  n.idStr = toString n.row.id ∧
  n.estPrevHours = safeJsonParse jparse n.row.estPrevHours (.arr []) ∧
  n.info = safeJsonParse jparse n.row.info (.obj [])

/-- Well-formedness of a level-3 subtree. -/
def WF3 (jparse : String → Option JVal) (parentId : Nat) (n : L3Node) : Prop :=
  n.row.taskLevel = 3 ∧ n.row.parentID = parentId ∧
  n.idStr = toString n.row.id ∧
  n.estPrevHours = safeJsonParse jparse n.row.estPrevHours (.arr []) ∧
  n.info = safeJsonParse jparse n.row.info (.obj []) ∧
  ∀ c ∈ n.subactionItems, WF4 jparse n.row.id c

/-- Well-formedness of a level-2 subtree. -/
def WF2 (jparse : String → Option JVal) (parentId : Nat) (n : L2Node) : Prop :=
  n.row.taskLevel = 2 ∧ n.row.parentID = parentId ∧
  n.idStr = toString n.row.id ∧
  n.estPrevHours = safeJsonParse jparse n.row.estPrevHours (.arr []) ∧
  n.info = safeJsonParse jparse n.row.info (.obj []) ∧
  ∀ c ∈ n.actionItems, WF3 jparse n.row.id c

/-- Well-formedness of a level-1 subtree (roots carry `parentID = 0`). -/
def WF1 (jparse : String → Option JVal) (n : L1Node) : Prop :=
  n.row.taskLevel = 1 ∧ n.row.parentID = 0 ∧
  n.idStr = toString n.row.id ∧
  n.estPrevHours = safeJsonParse jparse n.row.estPrevHours (.arr []) ∧
  n.info = safeJsonParse jparse n.row.info (.obj []) ∧
  ∀ c ∈ n.subtasks, WF2 jparse n.row.id c

/-- A well-formed 4-level task tree (forest): every subtree is well-formed
and the stored ids are globally distinct (they are a primary key). -/
def WFForest (jparse : String → Option JVal) (ts : List L1Node) : Prop :=
  (∀ n ∈ ts, WF1 jparse n) ∧
  ((flattenForest ts).map (fun r => r.id)).Nodup

/-! ## Helper lemmas -/

theorem find?_eq_some_id {l : List Row} {i : Nat} {t : Row}
    (h : l.find? (fun r => r.id == i) = some t) : t.id = i := by
  have := List.find?_some h
  simpa using this

theorem find?_mem_of_eq_some {l : List Row} {i : Nat} {t : Row}
    (h : l.find? (fun r => r.id == i) = some t) : t ∈ l :=
  List.mem_of_find?_eq_some h

/-! ## C9: deleting a missing task -/

/-- C9: for every id not present in the task table, `deleteTask` answers
NotFound and leaves the store unchanged (zero writes). -/
theorem deleteTask_missing_notFound (st : Store) (taskId : Nat)
    (h : st.tasks.find? (fun t => t.id == taskId) = none) :
    deleteTask st taskId = (st, .error (.notFound "Task not found")) := by
  simp [deleteTask, h]

/-- Witness for C9 at a concrete store: deleting id 7 from a one-task store
that does not contain it answers NotFound and changes nothing. -/
theorem deleteTask_missing_notFound_witness :
    deleteTask
      ⟨[⟨1⟩], [{ id := 1, projectID := 1, name := "a", taskLevel := 1
                 status := "todo", parentID := 0, level1ID := 1, level2ID := 0
                 level3ID := 0, level4ID := 0, estHours := 0
                 estPrevHours := .jstr "[]", actHours := 0
                 info := .jstr "{}" }]⟩ 7
      = (⟨[⟨1⟩], [{ id := 1, projectID := 1, name := "a", taskLevel := 1
                    status := "todo", parentID := 0, level1ID := 1
                    level2ID := 0, level3ID := 0, level4ID := 0, estHours := 0
                    estPrevHours := .jstr "[]", actHours := 0
                    info := .jstr "{}" }]⟩,
         .error (.notFound "Task not found")) :=
  deleteTask_missing_notFound _ 7 rfl

/-! ## C8: project deletion is all-or-nothing -/

/-- C8: `deleteProject` deletes all tasks of the project and the project row
in one transaction; when the project row is absent it answers NotFound and
the task deletions are rolled back, leaving the store unchanged. -/
theorem deleteProject_all_or_nothing (st : Store) (projectId : Nat) :
    ((¬ ∃ p ∈ st.projects, p.id = projectId) →
      deleteProject st projectId =
        (st, .error (.notFound "Project not found"))) ∧
    ((∃ p ∈ st.projects, p.id = projectId) →
      deleteProject st projectId =
        ({ projects := st.projects.filter (fun p => !(p.id == projectId))
           tasks := st.tasks.filter (fun t => !(t.projectID == projectId)) },
         .ok ())) := by
  constructor
  · intro habs
    have hfil : st.projects.filter (fun p => p.id == projectId) = [] := by
      rw [List.filter_eq_nil_iff]
      intro p hp
      simpa using fun h => habs ⟨p, hp, h⟩
    simp [deleteProject, hfil]
  · rintro ⟨p, hp, hid⟩
    have hfil : (st.projects.filter (fun q => q.id == projectId)).length ≠ 0 := by
      intro hlen
      rw [List.length_eq_zero, List.filter_eq_nil_iff] at hlen
      exact hlen p hp (by simpa using hid)
    simp [deleteProject, hfil]

/-- A sample stored task row used by the concrete witnesses below. -/
def sampleRow : Row :=
  { id := 1, projectID := 1, name := "a", taskLevel := 1, status := "todo"
    parentID := 0, level1ID := 1, level2ID := 0, level3ID := 0, level4ID := 0
    estHours := 0, estPrevHours := .jstr "[]", actHours := 0
    info := .jstr "{}" }

/-- A concrete stand-in for the external `JSON.stringify` used where a
witness has to fix the serializer. -/
def sampleSer : JVal → String := fun _ => "[]"

/-- Witness for C8 at a concrete store: deleting project 2 (absent) answers
NotFound and changes nothing; deleting project 1 removes its task and row. -/
theorem deleteProject_all_or_nothing_witness :
    deleteProject ⟨[⟨1⟩], [sampleRow]⟩ 2 =
      (⟨[⟨1⟩], [sampleRow]⟩, .error (.notFound "Project not found")) ∧
    deleteProject ⟨[⟨1⟩], [sampleRow]⟩ 1 = (⟨[], []⟩, .ok ()) := by
  refine ⟨(deleteProject_all_or_nothing ⟨[⟨1⟩], [sampleRow]⟩ 2).1 ?_,
          (deleteProject_all_or_nothing ⟨[⟨1⟩], [sampleRow]⟩ 1).2 ⟨⟨1⟩, by simp, rfl⟩⟩
  rintro ⟨p, hp, hid⟩
  simp at hp
  rw [hp] at hid
  exact absurd hid (by decide)

/-! ## C3: missing parent on create -/

/-- Counterexample to C3 as stated: with an existing project, an empty task
table, `taskLevel = 2` and `parentID = 0`, the claim demands an InvalidParent
failure with zero writes, but `createTask` skips the parent check entirely
(`taskLevel > 1 && parentID` is false for `parentID = 0`) and succeeds,
inserting one row whose ancestor pointers are all 0 except the patched
self-pointer. -/
theorem createTask_parent_zero_cex :
    (createTask sampleSer ⟨[⟨1⟩], []⟩
        { projectID := 1, name := "c", taskLevel := 2, status := "todo"
          parentID := 0, estHours := 0, estPrevHours := .arr []
          actHours := 0, info := .obj [] }).2.isOk = true ∧
    (createTask sampleSer ⟨[⟨1⟩], []⟩
        { projectID := 1, name := "c", taskLevel := 2, status := "todo"
          parentID := 0, estHours := 0, estPrevHours := .arr []
          actHours := 0, info := .obj [] }).1.tasks.length = 1 := by
  constructor <;> rfl

/-- C3, amended: for every `createTask` input with `taskLevel > 1` and a
*nonzero* `parentID` that does not resolve to an existing task row,
`createTask` fails with "Parent task not found" and performs zero writes
(with `parentID = 0` or absent the parent check is skipped and the task is
created, as the counterexample shows). -/
theorem createTask_missing_parent (jser : JVal → String) (st : Store)
    (inp : CreateInput)
    (hproj : ∃ p ∈ st.projects, p.id = inp.projectID)
    (hlvl : 1 < inp.taskLevel) (hpid : inp.parentID ≠ 0)
    (hfind : st.tasks.find? (fun t => t.id == inp.parentID) = none) :
    createTask jser st inp = (st, .error (.badRequest "Parent task not found")) := by
  obtain ⟨p, hp, hid⟩ := hproj
  have hfil : (st.projects.filter (fun q => q.id == inp.projectID)).length ≠ 0 := by
    intro hlen
    rw [List.length_eq_zero, List.filter_eq_nil_iff] at hlen
    exact hlen p hp (by simpa using hid)
  simp [createTask, hfil, hfind, hlvl, hpid]

/-- Witness for the amended C3: creating a level-2 task with `parentID = 9`
over an empty task table fails with "Parent task not found" and the store is
unchanged. -/
theorem createTask_missing_parent_witness :
    createTask sampleSer ⟨[⟨1⟩], []⟩
        { projectID := 1, name := "c", taskLevel := 2, status := "todo"
          parentID := 9, estHours := 0, estPrevHours := .arr []
          actHours := 0, info := .obj [] } =
      (⟨[⟨1⟩], []⟩, .error (.badRequest "Parent task not found")) :=
  createTask_missing_parent sampleSer _ _ ⟨⟨1⟩, by simp, rfl⟩
    (by decide) (by decide) rfl

/-! ## The createTask success path -/

theorem le_foldr_max {tasks : List Row} {t : Row} (h : t ∈ tasks) :
    t.id ≤ tasks.foldr (fun t m => max t.id m) 0 := by
  induction tasks with
  | nil => cases h
  | cons a l ih =>
      rcases List.mem_cons.mp h with h' | h'
      · subst h'; exact Nat.le_max_left _ _
      · exact le_trans (ih h') (Nat.le_max_right _ _)

theorem nextTaskId_fresh {tasks : List Row} {t : Row} (h : t ∈ tasks) :
    t.id ≠ nextTaskId tasks :=
  Nat.ne_of_lt (Nat.lt_succ_of_le (le_foldr_max h))

theorem patchSelf_id (L N : Nat) (t : Row) : (patchSelf L N t).id = t.id := by
  unfold patchSelf
  split
  · rfl
  · split
    · rfl
    · split
      · rfl
      · split <;> rfl

theorem find?_patch_insert (tasks : List Row) (ins : Row) (f : Row → Row)
    (N : Nat) (hfresh : ∀ t ∈ tasks, t.id ≠ N) (hid : ins.id = N)
    (hf : (f ins).id = ins.id) :
    ((tasks ++ [ins]).map (fun t => if t.id == N then f t else t)).find?
        (fun t => t.id == N) = some (f ins) := by
  induction tasks with
  | nil => simp [hid, List.find?, hf]
  | cons a l ih =>
      have ha : (a.id == N) = false := by
        simpa using hfresh a (List.mem_cons_self a l)
      simp only [List.cons_append, List.map_cons, List.find?, ha, if_false,
        Bool.false_eq_true]
      exact ih (fun t ht => hfresh t (List.mem_cons_of_mem a ht))

theorem insertAndPatch_eq (jser : JVal → String) (st : Store)
    (inp : CreateInput) (l1 l2 l3 l4 : Nat) :
    insertAndPatch jser st inp l1 l2 l3 l4 =
      ({ st with tasks := patchedTasks jser st inp l1 l2 l3 l4 },
       .ok (patchSelf inp.taskLevel (nextTaskId st.tasks)
              (insertedRow jser inp (nextTaskId st.tasks) l1 l2 l3 l4))) := by
  simp only [insertAndPatch, patchedTasks]
  rw [find?_patch_insert st.tasks _ _ _ (fun t ht => nextTaskId_fresh ht) rfl
    (patchSelf_id _ _ _)]

theorem createTask_ok_cases {jser : JVal → String} {st : Store}
    {inp : CreateInput} {st' : Store} {row : Row}
    (h : createTask jser st inp = (st', Except.ok row)) :
    ((inp.taskLevel ≤ 1 ∨ inp.parentID = 0) ∧
       row = patchSelf inp.taskLevel (nextTaskId st.tasks)
               (insertedRow jser inp (nextTaskId st.tasks) 0 0 0 0)) ∨
    (∃ parent, 1 < inp.taskLevel ∧ inp.parentID ≠ 0 ∧
       st.tasks.find? (fun t => t.id == inp.parentID) = some parent ∧
       row = patchSelf inp.taskLevel (nextTaskId st.tasks)
               (insertedRow jser inp (nextTaskId st.tasks)
                 (childLevels inp parent).1 (childLevels inp parent).2.1
                 (childLevels inp parent).2.2.1
                 (childLevels inp parent).2.2.2)) := by
  by_cases hpr : ((st.projects.filter (fun p => p.id == inp.projectID)).length == 0) = true
  · rw [createTask, if_pos hpr] at h
    exact absurd (congrArg Prod.snd h) (by simp)
  · rw [createTask, if_neg hpr] at h
    by_cases hc : (inp.taskLevel > 1 && inp.parentID != 0) = true
    · rw [if_pos hc] at h
      rcases hhc : st.tasks.find? (fun t => t.id == inp.parentID) with _ | parent
      · rw [hhc] at h
        exact absurd (congrArg Prod.snd h) (by simp)
      · rw [hhc] at h
        have h2 : insertAndPatch jser st inp (childLevels inp parent).1
            (childLevels inp parent).2.1 (childLevels inp parent).2.2.1
            (childLevels inp parent).2.2.2 = (st', Except.ok row) := h
        rw [insertAndPatch_eq] at h2
        have hrow := congrArg Prod.snd h2
        simp only [Prod.snd] at hrow
        rcases (Bool.and_eq_true _ _).mp hc with ⟨hc1, hc2⟩
        refine .inr ⟨parent, by simpa using hc1, by simpa using hc2, hhc, ?_⟩
        exact (Except.ok.inj hrow).symm
    · rw [if_neg hc] at h
      rw [insertAndPatch_eq] at h
      have hrow := congrArg Prod.snd h
      simp only [Prod.snd] at hrow
      refine .inl ⟨?_, (Except.ok.inj hrow).symm⟩
      rcases Bool.and_eq_false_iff.mp (Bool.not_eq_true _ |>.mp hc) with h1 | h1
      · exact .inl (by simpa using h1)
      · exact .inr (by simpa using h1)

/-! ## C2: per-row level invariant after creation -/

/-- A stored parent row at level 3 (its own self-pointer set), used to
exhibit the gap in C2: the handler never checks the parent's level. -/
def level3Parent : Row :=
  { id := 1, projectID := 1, name := "p", taskLevel := 3, status := "todo"
    parentID := 0, level1ID := 0, level2ID := 0, level3ID := 1, level4ID := 0
    estHours := 0, estPrevHours := .jstr "[]", actHours := 0
    info := .jstr "{}" }

/-- Counterexample to C2 as stated: creating a level-2 task under a parent
whose `taskLevel` is 3 (so the parent's `level3ID` is nonzero) produces a
row with `taskLevel = 2` whose `level3ID` is the inherited 1, not 0 —
`level{K}ID = 0` fails for K = 3 > L = 2.  The self-pointer half of the
claim does hold (`level2ID = 2 = id`). -/
theorem createTask_upper_level_cex :
    (createTask sampleSer ⟨[⟨1⟩], [level3Parent]⟩
        { projectID := 1, name := "c", taskLevel := 2, status := "todo"
          parentID := 1, estHours := 0, estPrevHours := .arr []
          actHours := 0, info := .obj [] }).2.map
      (fun r => (r.id, r.taskLevel, r.level2ID, r.level3ID)) =
      Except.ok (2, 2, 2, 1) ∧ (1 : Nat) ≠ 0 := by
  exact ⟨rfl, by decide⟩

/-- C2, amended: for every task row produced by `createTask` with
`taskLevel = L` in 1..4, `level{L}ID` equals the generated id (always), and
for every K > L `level{K}ID = 0` *provided* the parent row consulted (when
`taskLevel > 1` and `parentID ≠ 0`) has `level{K}ID = 0` and is not itself
at level K — which the counterexample shows is a real proviso. -/
theorem createTask_level_invariant (jser : JVal → String) {st : Store}
    {inp : CreateInput} {st' : Store} {row : Row}
    (h : createTask jser st inp = (st', Except.ok row))
    (h1 : 1 ≤ inp.taskLevel) (h4 : inp.taskLevel ≤ 4)
    (hpar : 1 < inp.taskLevel → inp.parentID ≠ 0 →
        ∀ parent, st.tasks.find? (fun t => t.id == inp.parentID) = some parent →
        ∀ K, inp.taskLevel < K → K ≤ 4 →
          levelId parent K = 0 ∧ parent.taskLevel ≠ K) :
    levelId row inp.taskLevel = row.id ∧
    ∀ K, inp.taskLevel < K → K ≤ 4 → levelId row K = 0 := by
  rcases createTask_ok_cases h with ⟨_, hrow⟩ | ⟨parent, hgt, hne0, hfind, hrow⟩
  · subst hrow
    constructor
    · have hL := h1
      interval_cases hTL : inp.taskLevel <;>
        simp [patchSelf, insertedRow, levelId, hTL]
    · intro K hK1 hK2
      interval_cases hTL : inp.taskLevel <;> interval_cases K <;>
        simp [patchSelf, insertedRow, levelId, hTL]
  · have hp := hpar hgt hne0 parent hfind
    subst hrow
    constructor
    · interval_cases hTL : inp.taskLevel <;>
        simp [patchSelf, insertedRow, levelId, hTL]
    · intro K hK1 hK2
      obtain ⟨hz, hne⟩ := hp K hK1 hK2
      interval_cases hTL : inp.taskLevel <;> interval_cases K <;>
        simp_all [patchSelf, insertedRow, levelId, childLevels]

/-- Witness for the amended C2: creating a root task in an empty task table
yields a row whose `level1ID` is its own id and whose `level2ID` is 0. -/
theorem createTask_level_invariant_witness :
    levelId (patchSelf 1 1 (insertedRow sampleSer
        { projectID := 1, name := "t", taskLevel := 1, status := "todo"
          parentID := 0, estHours := 0, estPrevHours := .arr []
          actHours := 0, info := .obj [] } 1 0 0 0 0)) 1 =
      (patchSelf 1 1 (insertedRow sampleSer
        { projectID := 1, name := "t", taskLevel := 1, status := "todo"
          parentID := 0, estHours := 0, estPrevHours := .arr []
          actHours := 0, info := .obj [] } 1 0 0 0 0)).id ∧
    levelId (patchSelf 1 1 (insertedRow sampleSer
        { projectID := 1, name := "t", taskLevel := 1, status := "todo"
          parentID := 0, estHours := 0, estPrevHours := .arr []
          actHours := 0, info := .obj [] } 1 0 0 0 0)) 2 = 0 := by
  have h := @createTask_level_invariant sampleSer ⟨[⟨1⟩], []⟩
    { projectID := 1, name := "t", taskLevel := 1, status := "todo"
      parentID := 0, estHours := 0, estPrevHours := .arr []
      actHours := 0, info := .obj [] }
    (createTask sampleSer ⟨[⟨1⟩], []⟩
      { projectID := 1, name := "t", taskLevel := 1, status := "todo"
        parentID := 0, estHours := 0, estPrevHours := .arr []
        actHours := 0, info := .obj [] }).1
    (patchSelf 1 1 (insertedRow sampleSer
      { projectID := 1, name := "t", taskLevel := 1, status := "todo"
        parentID := 0, estHours := 0, estPrevHours := .arr []
        actHours := 0, info := .obj [] } 1 0 0 0 0))
    rfl (by decide) (by decide) (by intro h1 h2 p hp; cases hp)
  exact ⟨h.1, h.2 2 (by decide) (by decide)⟩

/-! ## C6: ancestor inheritance from the parent -/

theorem levelId_patchSelf (L N : Nat) (t : Row) (K : Nat) (hne : L ≠ K) :
    levelId (patchSelf L N t) K = levelId t K := by
  unfold patchSelf
  rcases K with _ | _ | _ | _ | _ | K <;>
    split_ifs <;> simp_all [levelId]

/-- C6: for every task created with `taskLevel = L > 1` under an existing
parent P (nonzero `parentID` resolving to P), each ancestor column K < L of
the new row equals P's stored `level{K}ID`, or P's own id when
`P.taskLevel = K` and P's own-level pointer is unset (the `||` fallback). -/
theorem createTask_inherits_ancestors (jser : JVal → String) {st : Store}
    {inp : CreateInput} {st' : Store} {row : Row} {parent : Row}
    (h : createTask jser st inp = (st', Except.ok row))
    (hl : 1 < inp.taskLevel) (hp0 : inp.parentID ≠ 0)
    (hfind : st.tasks.find? (fun t => t.id == inp.parentID) = some parent) :
    ∀ K, 1 ≤ K → K ≤ 4 → K < inp.taskLevel →
      levelId row K = levelId parent K ∨
      (parent.taskLevel = K ∧ levelId row K = parent.id) := by
  rcases createTask_ok_cases h with ⟨hc | hc, _⟩ | ⟨p2, _, _, hfind2, hrow⟩
  · omega
  · exact absurd hc hp0
  · have hpp : p2 = parent := Option.some.inj (hfind2.symm.trans hfind)
    subst hpp
    intro K hK1 hK4 hKL
    have hne : inp.taskLevel ≠ K := by omega
    rw [hrow, levelId_patchSelf _ _ _ _ hne]
    interval_cases K <;>
      simp only [insertedRow, levelId, childLevels, hne, bne_iff_ne, ne_eq,
        beq_iff_eq, if_false] <;>
      split_ifs <;> simp_all [levelId]

/-- The request of the C6 witness: a subtask under task 1. -/
def c6Inp : CreateInput :=
  { projectID := 1, name := "sub", taskLevel := 2, status := "todo"
    parentID := 1, estHours := 0, estPrevHours := .arr []
    actHours := 0, info := .obj [] }

/-- The row the C6 witness creates. -/
def c6Row : Row := patchSelf 2 2 (insertedRow sampleSer c6Inp 2 1 0 0 0)

/-- Witness for C6: the level-2 task created under level-1 task 1 inherits
`level1ID` from it (the K = 1 instance). -/
theorem createTask_inherits_ancestors_witness :
    levelId c6Row 1 = levelId sampleRow 1 ∨
      (sampleRow.taskLevel = 1 ∧ levelId c6Row 1 = sampleRow.id) :=
  @createTask_inherits_ancestors sampleSer ⟨[⟨1⟩], [sampleRow]⟩ c6Inp
    (createTask sampleSer ⟨[⟨1⟩], [sampleRow]⟩ c6Inp).1 c6Row sampleRow
    rfl (by decide) (by decide) rfl 1 (by decide) (by decide) (by decide)

/-! ## C4: estPrevHours replacement on estHours update -/

theorem find?_map_update {l : List Row} {taskId : Nat} {t : Row}
    (h : l.find? (fun r => r.id == taskId) = some t) (r' : Row)
    (hid : r'.id = t.id) :
    (l.map (fun r => if r.id == taskId then r' else r)).find?
      (fun r => r.id == taskId) = some r' := by
  induction l with
  | nil => cases h
  | cons a l ih =>
      by_cases ha : (a.id == taskId) = true
      · have hta : a = t := by
          simpa [List.find?, ha] using h
        subst hta
        have hr : (r'.id == taskId) = true := by
          rw [hid]; exact ha
        simp [List.find?, ha, hr]
      · have ha' : (a.id == taskId) = false := by
          simpa using ha
        simp only [List.map_cons, List.find?, ha', if_false, Bool.false_eq_true]
        exact ih (by simpa [List.find?, ha'] using h)

/-- C4: when a partial update contains `estHours` and the target task's
level is > 1, the stored `estPrevHours` after the update is the serialized
one-element sequence holding the pre-update `estHours` — a replacement, not
an append, whatever `estPrevHours` held before — and it decodes back to
that one-element sequence (for a serializer/parser pair inverse at this
value). -/
theorem updateTask_estPrev_replace (jser : JVal → String)
    (jparse : String → Option JVal) {st : Store} {taskId : Nat}
    {u : UpdateInput} {t : Row}
    (hfind : st.tasks.find? (fun r => r.id == taskId) = some t)
    (hest : u.estHours.isSome = true) (hlvl : 1 < t.taskLevel)
    (htrim : (jser (.arr [.num t.estHours])).data.all
      (fun c => c.isWhitespace) = false)
    (hinv : jparse (jser (.arr [.num t.estHours])) =
      some (.arr [.num t.estHours])) :
    (updateTask jser jparse st taskId u).1.tasks.find?
        (fun r => r.id == taskId) = some (applyUpdates jser t u) ∧
    (applyUpdates jser t u).estPrevHours =
      .jstr (jser (.arr [.num t.estHours])) ∧
    safeJsonParse jparse (applyUpdates jser t u).estPrevHours (.arr []) =
      .arr [.num t.estHours] := by
  have hhf : (!u.hasField) = false := by
    simp [UpdateInput.hasField, hest]
  have hid : (applyUpdates jser t u).id = t.id := rfl
  have hfind2 := find?_map_update hfind (applyUpdates jser t u) hid
  have hprev : (applyUpdates jser t u).estPrevHours =
      .jstr (jser (.arr [.num t.estHours])) := by
    simp [applyUpdates, Option.isSome_iff_exists.mp hest, hlvl, hest]
  refine ⟨?_, hprev, ?_⟩
  · simp only [updateTask, hfind, hhf, Bool.false_eq_true, if_false, hfind2]
  · rw [hprev]
    simp [safeJsonParse, htrim, hinv]

/-- The task row of the C4 witness: a level-2 task with `estHours = 5` and a
nonempty estimate history. -/
def c4Row : Row :=
  { id := 1, projectID := 1, name := "s", taskLevel := 2, status := "todo"
    parentID := 0, level1ID := 0, level2ID := 1, level3ID := 0, level4ID := 0
    estHours := 5, estPrevHours := .jstr "[1,2]", actHours := 0
    info := .jstr "{}" }

/-- Serializer of the C4 witness, fixed on the value it is applied to. -/
def c4Ser : JVal → String := fun _ => "[5]"

/-- Parser of the C4 witness, inverse to `c4Ser` at `[5]`. -/
def c4Parse : String → Option JVal :=
  fun s => if s = "[5]" then some (.arr [.num 5]) else none

/-- Witness for C4: updating `estHours` to 9 on the level-2 task with prior
`estHours = 5` and history `[1,2]` replaces the stored history with the
serialized `[5]`, which decodes to the one-element sequence `[5]`. -/
theorem updateTask_estPrev_replace_witness :
    (updateTask c4Ser c4Parse ⟨[⟨1⟩], [c4Row]⟩ 1
        { estHours := some 9 }).1.tasks.find? (fun r => r.id == 1) =
      some (applyUpdates c4Ser c4Row { estHours := some 9 }) ∧
    (applyUpdates c4Ser c4Row { estHours := some 9 }).estPrevHours =
      .jstr (c4Ser (.arr [.num c4Row.estHours])) ∧
    safeJsonParse c4Parse
        (applyUpdates c4Ser c4Row { estHours := some 9 }).estPrevHours
        (.arr []) = .arr [.num c4Row.estHours] :=
  updateTask_estPrev_replace c4Ser c4Parse rfl rfl (by decide)
    (by decide) rfl

/-! ## C7: decode policy on read paths -/

/-- A stored row whose persisted `estPrevHours` is malformed JSON. -/
def c7Row : Row :=
  { id := 1, projectID := 1, name := "s", taskLevel := 2, status := "todo"
    parentID := 0, level1ID := 0, level2ID := 1, level3ID := 0, level4ID := 0
    estHours := 0, estPrevHours := .jstr "oops", actHours := 0
    info := .jstr "{}" }

/-- A parser that accepts exactly the well-formed strings of this scenario:
it throws (returns `none`) on the malformed "oops". -/
def c7Parse : String → Option JVal :=
  fun s => if s = "{}" then some (.obj []) else none

/-- C7 fails on the post-update read-back: renaming the task whose persisted
`estPrevHours` is the malformed string "oops" commits the update and then
answers the catch-all 500 "Failed to update task", because lines 545-556
feed the stored string to the raw, throwing `JSON.parse` instead of
`safeJsonParse` (despite the "Parse JSON fields safely" comment above them,
and unlike every other read path).  `safeJsonParse` itself — second
conjunct — would have decoded the same value to the empty sequence, as the
claim (and §4.1/§7 of the specification) promise. -/
theorem updateTask_malformed_readback_500 :
    updateTask sampleSer c7Parse ⟨[⟨1⟩], [c7Row]⟩ 1 { name := some "renamed" } =
      (⟨[⟨1⟩], [{ c7Row with name := "renamed" }]⟩,
       .error (.serverError "Failed to update task")) ∧
    safeJsonParse c7Parse (.jstr "oops") (.arr []) = .arr [] := by
  constructor <;> rfl

/-! ## The delete closure: both computations reach the least closed set -/

theorem closurePass_subset (fld : Row → Nat) :
    ∀ (l : List Row) (s : Finset ℕ), s ⊆ closurePass fld l s := by
  intro l
  induction l with
  | nil => intro s; simp [closurePass]
  | cons t ts ih =>
      intro s
      refine subset_trans ?_ (ih _)
      split
      · exact Finset.subset_insert _ _
      · exact subset_rfl

theorem closurePass_subset_union (fld : Row → Nat) :
    ∀ (l : List Row) (s : Finset ℕ),
      closurePass fld l s ⊆ s ∪ (l.map (fun r => r.id)).toFinset := by
  intro l
  induction l with
  | nil => intro s; simp [closurePass]
  | cons t ts ih =>
      intro s x hx
      simp only [closurePass] at hx
      have hx2 := ih _ hx
      rcases Finset.mem_union.mp hx2 with h | h
      · by_cases hc : fld t ∈ s ∧ t.id ∉ s
        · rw [if_pos hc] at h
          rcases Finset.mem_insert.mp h with h' | h'
          · subst h'
            simp
          · simp [h']
        · rw [if_neg hc] at h
          simp [h]
      · have : x ∈ (ts.map (fun r => r.id)).toFinset := h
        simp only [List.map_cons, List.toFinset_cons]
        exact Finset.mem_union_right _ (Finset.mem_insert_of_mem this)

theorem closurePass_mem (fld : Row → Nat) :
    ∀ (l : List Row) (s : Finset ℕ) (r : Row), r ∈ l → fld r ∈ s →
      r.id ∈ closurePass fld l s := by
  intro l
  induction l with
  | nil => intro s r hr; cases hr
  | cons t ts ih =>
      intro s r hr hf
      rcases List.mem_cons.mp hr with h | h
      · subst h
        by_cases hc : fld r ∈ s ∧ r.id ∉ s
        · have : r.id ∈ insert r.id s := Finset.mem_insert_self _ _
          simpa only [closurePass, if_pos hc] using
            closurePass_subset fld ts _ this
        · have hid : r.id ∈ s := by
            by_contra hne
            exact hc ⟨hf, hne⟩
          simp only [closurePass]
          split
          · exact closurePass_subset fld ts _ (Finset.mem_insert_of_mem hid)
          · exact closurePass_subset fld ts _ hid
      · simp only [closurePass]
        split
        · exact ih _ r h (Finset.mem_insert_of_mem hf)
        · exact ih _ r h hf

theorem closurePass_min (fld : Row → Nat) :
    ∀ (l : List Row) (s T : Finset ℕ), s ⊆ T →
      (∀ r ∈ l, fld r ∈ T → r.id ∈ T) → closurePass fld l s ⊆ T := by
  intro l
  induction l with
  | nil => intro s T hs _; simpa [closurePass] using hs
  | cons t ts ih =>
      intro s T hs hT
      simp only [closurePass]
      refine ih _ T ?_ (fun r hr => hT r (List.mem_cons_of_mem t hr))
      split
      · next hc =>
          exact Finset.insert_subset (hT t (List.mem_cons_self t ts) (hs hc.1)) hs
      · exact hs

theorem closureFirstPass_subset (fld : Row → Nat) (taskId : Nat) :
    ∀ (l : List Row) (s : Finset ℕ), s ⊆ closureFirstPass fld taskId l s := by
  intro l
  induction l with
  | nil => intro s; simp [closureFirstPass]
  | cons t ts ih =>
      intro s
      refine subset_trans ?_ (ih _)
      split
      · exact Finset.subset_insert _ _
      · exact subset_rfl

theorem closureFirstPass_subset_union (fld : Row → Nat) (taskId : Nat) :
    ∀ (l : List Row) (s : Finset ℕ),
      closureFirstPass fld taskId l s ⊆ s ∪ (l.map (fun r => r.id)).toFinset := by
  intro l
  induction l with
  | nil => intro s; simp [closureFirstPass]
  | cons t ts ih =>
      intro s x hx
      simp only [closureFirstPass] at hx
      have hx2 := ih _ hx
      rcases Finset.mem_union.mp hx2 with h | h
      · by_cases hc : (fld t == taskId) = true
        · rw [if_pos hc] at h
          rcases Finset.mem_insert.mp h with h' | h'
          · subst h'
            simp
          · simp [h']
        · rw [if_neg hc] at h
          simp [h]
      · have : x ∈ (ts.map (fun r => r.id)).toFinset := h
        simp only [List.map_cons, List.toFinset_cons]
        exact Finset.mem_union_right _ (Finset.mem_insert_of_mem this)

theorem closureFirstPass_min (fld : Row → Nat) (taskId : Nat) :
    ∀ (l : List Row) (s T : Finset ℕ), s ⊆ T →
      (∀ r ∈ l, fld r = taskId → r.id ∈ T) →
      closureFirstPass fld taskId l s ⊆ T := by
  intro l
  induction l with
  | nil => intro s T hs _; simpa [closureFirstPass] using hs
  | cons t ts ih =>
      intro s T hs hA
      simp only [closureFirstPass]
      refine ih _ T ?_ (fun r hr => hA r (List.mem_cons_of_mem t hr))
      split
      · next hc =>
          exact Finset.insert_subset
            (hA t (List.mem_cons_self t ts) (by simpa using hc)) hs
      · exact hs

theorem closureFirstPass_mem (fld : Row → Nat) (taskId : Nat) :
    ∀ (l : List Row) (s : Finset ℕ) (r : Row), r ∈ l → fld r = taskId →
      r.id ∈ closureFirstPass fld taskId l s := by
  intro l
  induction l with
  | nil => intro s r hr; cases hr
  | cons t ts ih =>
      intro s r hr hf
      rcases List.mem_cons.mp hr with h | h
      · subst h
        have hc : (fld r == taskId) = true := by simpa using hf
        simp only [closureFirstPass, hc, if_true]
        exact closureFirstPass_subset fld taskId ts _
          (Finset.mem_insert_self _ _)
      · simp only [closureFirstPass]
        exact ih _ r h hf

theorem closureLoop_subset (fld : Row → Nat) (l : List Row) :
    ∀ (fuel : Nat) (s : Finset ℕ), s ⊆ closureLoop fld l s fuel := by
  intro fuel
  induction fuel with
  | zero => intro s; simp [closureLoop]
  | succ n ih =>
      intro s
      simp only [closureLoop]
      split
      · exact closurePass_subset fld l s
      · exact subset_trans (closurePass_subset fld l s) (ih _)

theorem closureLoop_min (fld : Row → Nat) (l : List Row) :
    ∀ (fuel : Nat) (s T : Finset ℕ), s ⊆ T →
      (∀ r ∈ l, fld r ∈ T → r.id ∈ T) → closureLoop fld l s fuel ⊆ T := by
  intro fuel
  induction fuel with
  | zero => intro s T hs _; simpa [closureLoop] using hs
  | succ n ih =>
      intro s T hs hT
      simp only [closureLoop]
      split
      · exact closurePass_min fld l s T hs hT
      · exact ih _ T (closurePass_min fld l s T hs hT) hT

theorem closureLoop_fix (fld : Row → Nat) (l : List Row) (V : Finset ℕ)
    (hV : ∀ t ∈ l, t.id ∈ V) :
    ∀ (fuel : Nat) (s : Finset ℕ), s ⊆ V → V.card < s.card + fuel →
      closurePass fld l (closureLoop fld l s fuel) = closureLoop fld l s fuel := by
  intro fuel
  induction fuel with
  | zero =>
      intro s hsV hcard
      have := Finset.card_le_card hsV
      omega
  | succ n ih =>
      intro s hsV hcard
      simp only [closureLoop]
      split
      · next heq =>
          have hsub := closurePass_subset fld l s
          have hps : s = closurePass fld l s :=
            Finset.eq_of_subset_of_card_le hsub (le_of_eq heq)
          rw [← hps]
          exact hps.symm
      · next hne =>
          have hVclosed : ∀ r ∈ l, fld r ∈ V → r.id ∈ V :=
            fun r hr _ => hV r hr
          have hsub' : closurePass fld l s ⊆ V :=
            closurePass_min fld l s V hsV hVclosed
          have hlt : s.card < (closurePass fld l s).card :=
            lt_of_le_of_ne (Finset.card_le_card (closurePass_subset fld l s))
              (fun h => hne h.symm)
          exact ih _ hsub' (by omega)

theorem deleteClosureNumeric_first_mem (fld : Row → Nat) (taskId : Nat)
    (l : List Row) :
    ∀ r ∈ l, fld r = taskId → r.id ∈ deleteClosureNumeric fld taskId l :=
  fun r hr hf =>
    closureLoop_subset fld l _ _ (closureFirstPass_mem fld taskId l ∅ r hr hf)

theorem deleteClosureNumeric_closed (fld : Row → Nat) (taskId : Nat)
    (l : List Row) : ClosedUnder fld l (deleteClosureNumeric fld taskId l) := by
  intro r hr hf
  have hV : ∀ t ∈ l, t.id ∈ (l.map (fun r => r.id)).toFinset :=
    fun t ht => List.mem_toFinset.mpr (List.mem_map_of_mem _ ht)
  have hsV : closureFirstPass fld taskId l ∅ ⊆
      (l.map (fun r => r.id)).toFinset := by
    refine subset_trans (closureFirstPass_subset_union fld taskId l _) ?_
    intro x hx
    rcases Finset.mem_union.mp hx with h | h
    · cases Finset.not_mem_empty x h
    · exact h
  have hcard : ((l.map (fun r => r.id)).toFinset).card <
      (closureFirstPass fld taskId l ∅).card + (l.length + 1) := by
    have h2 : ((l.map (fun r => r.id)).toFinset).card ≤ l.length := by
      calc ((l.map (fun r => r.id)).toFinset).card
          ≤ (l.map (fun r => r.id)).length := (l.map (fun r => r.id)).toFinset_card_le
        _ = l.length := List.length_map _ _
    omega
  have hfix := closureLoop_fix fld l _ hV (l.length + 1) _ hsV hcard
  have hfix2 : closurePass fld l (deleteClosureNumeric fld taskId l) =
      deleteClosureNumeric fld taskId l := hfix
  have hmem := closurePass_mem fld l (deleteClosureNumeric fld taskId l) r hr hf
  rw [hfix2] at hmem
  exact hmem

theorem deleteClosureNumeric_min (fld : Row → Nat) (taskId : Nat)
    (l : List Row) (T : Finset ℕ)
    (hA : ∀ r ∈ l, fld r = taskId → r.id ∈ T) (hT : ClosedUnder fld l T) :
    deleteClosureNumeric fld taskId l ⊆ T := by
  refine closureLoop_min fld l _ _ T ?_ hT
  exact closureFirstPass_min fld taskId l _ T (Finset.empty_subset T) hA

theorem deleteClosureNumeric_bound (fld : Row → Nat) (taskId : Nat)
    (l : List Row) :
    deleteClosureNumeric fld taskId l ⊆ (l.map (fun r => r.id)).toFinset := by
  refine deleteClosureNumeric_min fld taskId l _ ?_ ?_
  · intro r hr _
    exact List.mem_toFinset.mpr (List.mem_map_of_mem _ hr)
  · intro r hr _
    exact List.mem_toFinset.mpr (List.mem_map_of_mem _ hr)

theorem specStep_subset (fld : Row → Nat) (l : List Row) (S : Finset ℕ) :
    S ⊆ specStep fld l S :=
  Finset.subset_union_left

theorem specStep_min (fld : Row → Nat) (l : List Row) (S T : Finset ℕ)
    (hS : S ⊆ T) (hT : ClosedUnder fld l T) : specStep fld l S ⊆ T := by
  refine Finset.union_subset hS ?_
  intro x hx
  rcases List.mem_map.mp (List.mem_toFinset.mp hx) with ⟨r, hr, hid⟩
  rcases List.mem_filter.mp hr with ⟨hrl, hrS⟩
  subst hid
  exact hT r hrl (hS (by simpa using hrS))

theorem specStep_closed_of_fix (fld : Row → Nat) (l : List Row)
    (S : Finset ℕ) (h : specStep fld l S = S) : ClosedUnder fld l S := by
  intro r hr hf
  have : r.id ∈ specStep fld l S := by
    refine Finset.mem_union_right _ (List.mem_toFinset.mpr ?_)
    exact List.mem_map_of_mem _ (List.mem_filter.mpr ⟨hr, by simpa using hf⟩)
  rwa [h] at this

theorem specIter_subset (fld : Row → Nat) (l : List Row) :
    ∀ (n : Nat) (S : Finset ℕ), S ⊆ specIter fld l S n := by
  intro n
  induction n with
  | zero => intro S; simp [specIter]
  | succ n ih =>
      intro S
      simp only [specIter]
      split
      · exact subset_rfl
      · exact subset_trans (specStep_subset fld l S) (ih _)

theorem specIter_min (fld : Row → Nat) (l : List Row) :
    ∀ (n : Nat) (S T : Finset ℕ), S ⊆ T → ClosedUnder fld l T →
      specIter fld l S n ⊆ T := by
  intro n
  induction n with
  | zero => intro S T hS _; simpa [specIter] using hS
  | succ n ih =>
      intro S T hS hT
      simp only [specIter]
      split
      · exact hS
      · exact ih _ T (specStep_min fld l S T hS hT) hT

theorem specIter_fix (fld : Row → Nat) (l : List Row) (V : Finset ℕ)
    (hV : ∀ t ∈ l, t.id ∈ V) :
    ∀ (n : Nat) (S : Finset ℕ), S ⊆ V → V.card < S.card + n →
      specStep fld l (specIter fld l S n) = specIter fld l S n := by
  have hVclosed : ClosedUnder fld l V := fun r hr _ => hV r hr
  intro n
  induction n with
  | zero =>
      intro S hSV hcard
      have := Finset.card_le_card hSV
      omega
  | succ n ih =>
      intro S hSV hcard
      simp only [specIter]
      split
      · next heq => exact heq
      · next hne =>
          have hsub' : specStep fld l S ⊆ V :=
            specStep_min fld l S V hSV hVclosed
          have hlt : S.card < (specStep fld l S).card :=
            lt_of_le_of_ne (Finset.card_le_card (specStep_subset fld l S))
              (fun h => hne (Finset.eq_of_subset_of_card_le
                (specStep_subset fld l S) (le_of_eq h.symm)).symm)
          exact ih _ hsub' (by omega)

theorem specClosure_start_mem (fld : Row → Nat) (l : List Row)
    (startId : Nat) : startId ∈ specClosure fld l startId :=
  specIter_subset fld l _ _ (Finset.mem_singleton_self startId)

theorem specClosure_closed (fld : Row → Nat) (l : List Row) (startId : Nat) :
    ClosedUnder fld l (specClosure fld l startId) := by
  have hV : ∀ t ∈ l, t.id ∈ insert startId ((l.map (fun r => r.id)).toFinset) :=
    fun t ht => Finset.mem_insert_of_mem
      (List.mem_toFinset.mpr (List.mem_map_of_mem _ ht))
  have hsV : ({startId} : Finset ℕ) ⊆
      insert startId ((l.map (fun r => r.id)).toFinset) := by
    intro x hx
    rw [Finset.mem_singleton.mp hx]
    exact Finset.mem_insert_self _ _
  have hcard : (insert startId ((l.map (fun r => r.id)).toFinset)).card <
      ({startId} : Finset ℕ).card + (l.length + 1) := by
    have h1 : (insert startId ((l.map (fun r => r.id)).toFinset)).card ≤
        ((l.map (fun r => r.id)).toFinset).card + 1 := Finset.card_insert_le _ _
    have h2 : ((l.map (fun r => r.id)).toFinset).card ≤ l.length := by
      calc ((l.map (fun r => r.id)).toFinset).card
          ≤ (l.map (fun r => r.id)).length := (l.map (fun r => r.id)).toFinset_card_le
        _ = l.length := List.length_map _ _
    simp only [Finset.card_singleton]
    omega
  exact specStep_closed_of_fix fld l _
    (specIter_fix fld l _ hV (l.length + 1) _ hsV hcard)

theorem specClosure_min (fld : Row → Nat) (l : List Row) (startId : Nat)
    (T : Finset ℕ) (htid : startId ∈ T) (hT : ClosedUnder fld l T) :
    specClosure fld l startId ⊆ T :=
  specIter_min fld l _ _ T (Finset.singleton_subset_iff.mpr htid) hT

/-- The handler's set and the specification's fixed-point closure agree up
to the string/number split: the specification's closure — the least set
containing the start id closed under "add every task whose level field is in
the set" — is exactly the start id together with the numeric part of the
handler's `Set` (the rows the `IN` list deletes), the string element
coercing back onto the start id. -/
theorem specClosure_eq_insert_numeric (fld : Row → Nat) (taskId : Nat)
    (l : List Row) :
    specClosure fld l taskId =
      insert taskId (deleteClosureNumeric fld taskId l) := by
  apply Finset.Subset.antisymm
  · refine specClosure_min fld l taskId _ (Finset.mem_insert_self _ _) ?_
    intro r hr hf
    rcases Finset.mem_insert.mp hf with h | h
    · exact Finset.mem_insert_of_mem
        (deleteClosureNumeric_first_mem fld taskId l r hr h)
    · exact Finset.mem_insert_of_mem
        (deleteClosureNumeric_closed fld taskId l r hr h)
  · refine Finset.insert_subset (specClosure_start_mem fld l taskId) ?_
    refine deleteClosureNumeric_min fld taskId l _ ?_
      (specClosure_closed fld l taskId)
    intro r hr hf
    exact specClosure_closed fld l taskId r hr
      (hf ▸ specClosure_start_mem fld l taskId)

theorem length_filter_by_id (l : List Row) (p : Nat → Bool) :
    (l.filter (fun r => p r.id)).length =
      ((l.map (fun r => r.id)).filter p).length := by
  induction l with
  | nil => rfl
  | cons a l ih =>
      by_cases ha : p a.id = true <;>
        simp [List.filter_cons, ha, ih]

theorem length_filter_mem_of_nodup (l : List ℕ) (hN : l.Nodup)
    (C : Finset ℕ) (hC : C ⊆ l.toFinset) :
    (l.filter (fun x => x ∈ C)).length = C.card := by
  have h1 : (l.filter (fun x => x ∈ C)).Nodup := hN.filter _
  have h2 : (l.filter (fun x => x ∈ C)).toFinset = l.toFinset ∩ C := by
    ext x
    simp [List.mem_toFinset, List.mem_filter, Finset.mem_inter]
  have h4 : l.toFinset ∩ C = C := Finset.inter_eq_right.mpr hC
  calc (l.filter (fun x => x ∈ C)).length
      = (l.filter (fun x => x ∈ C)).toFinset.card :=
        (List.toFinset_card_of_nodup h1).symm
    _ = C.card := by rw [h2, h4]

/-- The descendant set `deleteTask` is specified to remove: the fixed-point
closure of `{taskId}` under the level-`t.taskLevel` ancestor field, over the
tasks of `t`'s project. -/
def taskClosure (st : Store) (t : Row) (taskId : Nat) : Finset ℕ :=
  specClosure (fun r => levelId r t.taskLevel)
    (st.tasks.filter (fun r => r.projectID == t.projectID)) taskId

/-- The numeric part of the handler's `idsToDelete` set at the arguments
`deleteTask` computes it with. -/
def taskNumericIds (st : Store) (t : Row) (taskId : Nat) : Finset ℕ :=
  deleteClosureNumeric (fun r => levelId r t.taskLevel) taskId
    (st.tasks.filter (fun r => r.projectID == t.projectID))

/-- C1, amended: for a stored task `t` (distinct primary keys, level in
1..4), `deleteTask t.id` removes exactly the rows whose id lies in the
fixed-point closure *over the tasks of t's project* — N+1 rows for N
transitive descendants — but answers `deletedCount` equal to the size of
its JS `Set`, which holds the string route parameter alongside the numeric
ids it collects: `deletedCount = |numeric part| + 1`, which is N+2 whenever
`t`'s own `level{L}ID` equals `t.id` (every row `createTask` produces, by
the self-pointer patch) and N+1 only when `t.id` never enters the set
numerically; when no project row's level field points at the task (a leaf)
the closure is `{t.id}` and exactly 1 row is removed.  (The original claim
computes the closure over every task in the store and asserts
`deletedCount == N+1`; the counterexample shows the handler's closure is
project-scoped and its count is off by the extra string element.) -/
theorem deleteTask_removes_closure {st : Store} {taskId : Nat} {t : Row}
    (hfind : st.tasks.find? (fun r => r.id == taskId) = some t)
    (hN : (st.tasks.map (fun r => r.id)).Nodup)
    (h1 : 1 ≤ t.taskLevel) (h4 : t.taskLevel ≤ 4) :
    deleteTask st taskId =
      ({ st with tasks :=
          st.tasks.filter (fun r => r.id ∉ taskClosure st t taskId) },
       .ok ((taskNumericIds st t taskId).card + 1)) ∧
    taskClosure st t taskId = insert taskId (taskNumericIds st t taskId) ∧
    (st.tasks.filter (fun r => r.id ∈ taskClosure st t taskId)).length =
      (taskClosure st t taskId).card ∧
    st.tasks.length =
      (st.tasks.filter (fun r => r.id ∉ taskClosure st t taskId)).length +
        (taskClosure st t taskId).card ∧
    (levelId t t.taskLevel = taskId →
      (taskNumericIds st t taskId).card + 1 =
        (taskClosure st t taskId).card + 1) ∧
    (taskId ∉ taskNumericIds st t taskId →
      (taskNumericIds st t taskId).card + 1 =
        (taskClosure st t taskId).card) ∧
    ((∀ r ∈ st.tasks.filter (fun r => r.projectID == t.projectID),
        levelId r t.taskLevel = taskId → r.id = taskId) →
      taskClosure st t taskId = {taskId}) := by
  have hlvl : (t.taskLevel < 1 || 4 < t.taskLevel) = false := by
    simp only [Bool.or_eq_false_iff, decide_eq_false_iff_not, not_lt]
    omega
  have htid : t.id = taskId := find?_eq_some_id hfind
  have htmem : t ∈ st.tasks := find?_mem_of_eq_some hfind
  have hins : taskClosure st t taskId =
      insert taskId (taskNumericIds st t taskId) :=
    specClosure_eq_insert_numeric _ _ _
  have hsubC : taskClosure st t taskId ⊆
      (st.tasks.map (fun r => r.id)).toFinset := by
    refine specClosure_min _ _ _ _ ?_ ?_
    · exact List.mem_toFinset.mpr (htid ▸ List.mem_map_of_mem _ htmem)
    · intro r hr _
      exact List.mem_toFinset.mpr
        (List.mem_map_of_mem _ (List.mem_of_mem_filter hr))
  have hcount : (st.tasks.filter
      (fun r => r.id ∈ taskClosure st t taskId)).length =
      (taskClosure st t taskId).card := by
    rw [length_filter_by_id st.tasks (fun x => x ∈ taskClosure st t taskId)]
    exact length_filter_mem_of_nodup _ hN _ hsubC
  refine ⟨?_, hins, hcount, ?_, ?_, ?_, ?_⟩
  · simp only [deleteTask, hfind, hlvl, Bool.false_eq_true, if_false, hins]
    rfl
  · have hpart := @List.length_eq_length_filter_add Row st.tasks
      (fun r => r.id ∈ taskClosure st t taskId)
    rw [hcount] at hpart
    have hcompl : (st.tasks.filter
        (fun r => !(decide (r.id ∈ taskClosure st t taskId)))).length =
        (st.tasks.filter (fun r => r.id ∉ taskClosure st t taskId)).length := by
      simp [decide_not]
    omega
  · intro hself
    have htp : t ∈ st.tasks.filter (fun r => r.projectID == t.projectID) :=
      List.mem_filter.mpr ⟨htmem, by simp⟩
    have hmemN : taskId ∈ taskNumericIds st t taskId := by
      have hm := deleteClosureNumeric_first_mem (fun r => levelId r t.taskLevel)
        taskId (st.tasks.filter (fun r => r.projectID == t.projectID)) t htp hself
      rwa [htid] at hm
    rw [hins, Finset.insert_eq_self.mpr hmemN]
  · intro hnot
    rw [hins, Finset.card_insert_of_not_mem hnot]
  · intro hleaf
    refine Finset.Subset.antisymm ?_ ?_
    · refine specClosure_min _ _ _ _ (Finset.mem_singleton_self _) ?_
      intro r hr hf
      exact Finset.mem_singleton.mpr
        (hleaf r hr (Finset.mem_singleton.mp hf))
    · exact Finset.singleton_subset_iff.mpr
        (specClosure_start_mem _ _ _)

/-- The root task of the cross-project counterexample and witness stores. -/
def c1Root : Row :=
  { id := 1, projectID := 1, name := "root", taskLevel := 1, status := "todo"
    parentID := 0, level1ID := 1, level2ID := 0, level3ID := 0, level4ID := 0
    estHours := 0, estPrevHours := .jstr "[]", actHours := 0
    info := .jstr "{}" }

/-- A subtask of task 1 inside the same project. -/
def c1Child : Row :=
  { id := 2, projectID := 1, name := "child", taskLevel := 2, status := "todo"
    parentID := 1, level1ID := 1, level2ID := 2, level3ID := 0, level4ID := 0
    estHours := 0, estPrevHours := .jstr "[]", actHours := 0
    info := .jstr "{}" }

/-- A subtask of task 1 that lives in *another* project — creatable through
the API, since `createTask` never compares the parent's `projectID` with the
new task's. -/
def c1Cross : Row :=
  { id := 3, projectID := 2, name := "cross", taskLevel := 2, status := "todo"
    parentID := 1, level1ID := 1, level2ID := 3, level3ID := 0, level4ID := 0
    estHours := 0, estPrevHours := .jstr "[]", actHours := 0
    info := .jstr "{}" }

/-- Counterexample to C1 as stated, in both of the ways it fails.
Scope: with task 1 in project 1 and a row in project 2 whose `level1ID` is
1, the claim's store-wide fixed-point closure of task 1 is `{1, 3}`, so the
claim demands row 3 be among the removed rows; `deleteTask 1` only consults
project 1 and row 3 survives.  Count: on a store holding the single
API-created leaf task 1 (its `level1ID` is its own id), N = 0 and the claim
demands `deletedCount == 1`; the handler's set ends as
{the string "1", the number 1} — the leaf's self-pointer matches the first
pass's coercing `==`, and `Set.add`/`size` do not coerce — so it removes
the 1 row but answers `deletedCount = 2`. -/
theorem deleteTask_scope_and_count_cex :
    specClosure (fun r => levelId r 1) [c1Root, c1Cross] 1 =
      ({1, 3} : Finset ℕ) ∧
    ((deleteTask ⟨[⟨1⟩, ⟨2⟩], [c1Root, c1Cross]⟩ 1).1.tasks.map
      (fun r => r.id)) = [3] ∧
    (deleteTask ⟨[⟨1⟩], [c1Root]⟩ 1).2 = .ok 2 ∧
    (deleteTask ⟨[⟨1⟩], [c1Root]⟩ 1).1.tasks = [] ∧
    (2 : ℕ) ≠ 0 + 1 := by
  refine ⟨by decide, rfl, rfl, rfl, by decide⟩

/-- Witness for the amended C1: deleting task 1 from the two-task project
removes it and its subtask — the project-scoped closure — and answers one
more than the numeric id count (here 2 numeric ids, `deletedCount = 3`). -/
theorem deleteTask_removes_closure_witness :
    deleteTask ⟨[⟨1⟩], [c1Root, c1Child]⟩ 1 =
      (⟨[⟨1⟩], ([c1Root, c1Child] : List Row).filter
          (fun r => r.id ∉ taskClosure ⟨[⟨1⟩], [c1Root, c1Child]⟩ c1Root 1)⟩,
       .ok ((taskNumericIds ⟨[⟨1⟩], [c1Root, c1Child]⟩ c1Root 1).card + 1)) :=
  (@deleteTask_removes_closure ⟨[⟨1⟩], [c1Root, c1Child]⟩ 1 c1Root rfl
    (by decide) (by decide) (by decide)).1

/-! ## C10: deletion never touches other projects -/

/-- C10: the closure `deleteTask` deletes is computed over (and its ids drawn
from) the rows of the deleted task's project only, and ids are a primary
key, so every stored row of a different project survives the deletion —
even one whose level-ancestor field equals an id in the closure. -/
theorem deleteTask_other_projects_unchanged {st : Store} {taskId : Nat}
    {t : Row}
    (hfind : st.tasks.find? (fun r => r.id == taskId) = some t)
    (hN : (st.tasks.map (fun r => r.id)).Nodup) :
    ∀ r ∈ st.tasks, r.projectID ≠ t.projectID →
      r ∈ (deleteTask st taskId).1.tasks := by
  intro r hr hrp
  have htid : t.id = taskId := find?_eq_some_id hfind
  have htmem : t ∈ st.tasks := find?_mem_of_eq_some hfind
  by_cases hlvl : (t.taskLevel < 1 || 4 < t.taskLevel) = true
  · simp only [deleteTask, hfind, hlvl, if_true]
    exact hr
  · have hlvl' : (t.taskLevel < 1 || 4 < t.taskLevel) = false := by
      simpa using hlvl
    simp only [deleteTask, hfind, hlvl', Bool.false_eq_true, if_false]
    refine List.mem_filter.mpr ⟨hr, ?_⟩
    simp only [decide_eq_true_eq]
    intro hrin
    have hsub := deleteClosureNumeric_bound (fun q => levelId q t.taskLevel)
      taskId (st.tasks.filter (fun q => q.projectID == t.projectID))
    rcases Finset.mem_insert.mp hrin with h | h
    · have : r = t := List.inj_on_of_nodup_map hN hr htmem (h.trans htid.symm)
      exact hrp (this ▸ rfl)
    · rcases List.mem_map.mp (List.mem_toFinset.mp (hsub h)) with ⟨q, hq, hqid⟩
      have hq1 := List.mem_of_mem_filter hq
      have hq2 : (q.projectID == t.projectID) = true := (List.mem_filter.mp hq).2
      have : q = r := List.inj_on_of_nodup_map hN hq1 hr hqid
      subst this
      exact hrp (by simpa using hq2)

/-- Witness for C10: deleting task 1 of project 1 leaves the project-2 row
whose `level1ID` is 1 in place. -/
theorem deleteTask_other_projects_unchanged_witness :
    c1Cross ∈ (deleteTask ⟨[⟨1⟩, ⟨2⟩], [c1Root, c1Cross]⟩ 1).1.tasks :=
  @deleteTask_other_projects_unchanged ⟨[⟨1⟩, ⟨2⟩], [c1Root, c1Cross]⟩ 1
    c1Root rfl (by decide) c1Cross (by simp) (by decide)

/-! ## C5: rebuilding a flattened tree -/

theorem flatMap_congr {α β : Type} {l : List α} {f g : α → List β}
    (h : ∀ a ∈ l, f a = g a) : l.flatMap f = l.flatMap g := by
  induction l with
  | nil => rfl
  | cons x xs ih =>
      simp only [List.flatMap_cons]
      rw [h x (List.mem_cons_self x xs),
        ih (fun a ha => h a (List.mem_cons_of_mem x ha))]

theorem flatMap_eq_nil {α β : Type} {l : List α} {f : α → List β}
    (h : ∀ a ∈ l, f a = []) : l.flatMap f = [] := by
  induction l with
  | nil => rfl
  | cons x xs ih =>
      simp only [List.flatMap_cons, h x (List.mem_cons_self x xs),
        List.nil_append]
      exact ih (fun a ha => h a (List.mem_cons_of_mem x ha))

/-- With pairwise-distinct keys, flat-mapping a body guarded by "key equals
the key of `a`" collapses to the contribution of `a` alone. -/
theorem flatMap_single_key {α β : Type} {l : List α} (key : α → ℕ)
    (v : α → List β) (hnd : (l.map key).Nodup) {a : α} (ha : a ∈ l) :
    l.flatMap (fun b => if key b = key a then v b else []) = v a := by
  induction l with
  | nil => cases ha
  | cons x xs ih =>
      simp only [List.map_cons, List.nodup_cons] at hnd
      rcases List.mem_cons.mp ha with rfl | ha'
      · simp only [List.flatMap_cons, if_pos rfl]
        have hrest : xs.flatMap (fun b => if key b = key a then v b else []) = [] := by
          refine flatMap_eq_nil (fun b hb => ?_)
          have : key b ≠ key a := by
            intro hk
            exact hnd.1 (hk ▸ List.mem_map_of_mem key hb)
          rw [if_neg this]
        simp [hrest]
      · have hx : key x ≠ key a := by
          intro hk
          exact hnd.1 (hk.symm ▸ List.mem_map_of_mem key ha')
        simp only [List.flatMap_cons, if_neg hx, List.nil_append]
        exact ih hnd.2 ha'

/-- A list made of the heads of nonempty blocks is a sublist of the
concatenation of those blocks. -/
theorem heads_sublist {α β : Type} (xs : List α) (F : α → List β)
    (g : α → β) (h : ∀ x ∈ xs, ∃ r, F x = g x :: r) :
    List.Sublist (xs.map g) (xs.flatMap F) := by
  induction xs with
  | nil => simp
  | cons x l ih =>
      obtain ⟨r, hr⟩ := h x (List.mem_cons_self x l)
      simp only [List.map_cons, List.flatMap_cons, hr, List.cons_append]
      refine List.Sublist.cons₂ _ ?_
      exact ((ih (fun y hy => h y (List.mem_cons_of_mem x hy))).trans
        (List.sublist_append_right r _))

theorem flatMap_sublist {α β : Type} {l : List α} {f g : α → List β}
    (h : ∀ a ∈ l, List.Sublist (f a) (g a)) :
    List.Sublist (l.flatMap f) (l.flatMap g) := by
  induction l with
  | nil => simp
  | cons x xs ih =>
      simp only [List.flatMap_cons]
      exact (h x (List.mem_cons_self x xs)).append
        (ih (fun a ha => h a (List.mem_cons_of_mem x ha)))

theorem flatMap_singleton_map {α β : Type} (l : List α) (f : α → β) :
    l.flatMap (fun x => [f x]) = l.map f := by
  induction l <;> simp_all

theorem flattenL4_level {jp : String → Option JVal} {p : Nat} {c : L4Node}
    (h : WF4 jp p c) : ∀ r ∈ flattenL4 c, r.taskLevel = 4 := by
  intro r hr
  rw [show r = c.row by simpa [flattenL4] using hr]
  exact h.1

theorem flattenL3_level_ge {jp : String → Option JVal} {p : Nat} {a : L3Node}
    (h : WF3 jp p a) : ∀ r ∈ flattenL3 a, 3 ≤ r.taskLevel := by
  intro r hr
  rcases List.mem_cons.mp hr with rfl | hr'
  · have := h.1
    omega
  · rcases List.mem_flatMap.mp hr' with ⟨c, hc, hrc⟩
    have := flattenL4_level (h.2.2.2.2.2 c hc) r hrc
    omega

theorem flattenL2_level_ge {jp : String → Option JVal} {p : Nat} {s : L2Node}
    (h : WF2 jp p s) : ∀ r ∈ flattenL2 s, 2 ≤ r.taskLevel := by
  intro r hr
  rcases List.mem_cons.mp hr with rfl | hr'
  · have := h.1
    omega
  · rcases List.mem_flatMap.mp hr' with ⟨a, ha, hra⟩
    have := flattenL3_level_ge (h.2.2.2.2.2 a ha) r hra
    omega

theorem filter1_flattenL1 {jp : String → Option JVal} {n : L1Node}
    (h : WF1 jp n) :
    (flattenL1 n).filter (fun x => x.parentID == 0 && x.taskLevel == 1) =
      [n.row] := by
  simp only [flattenL1, List.filter_cons]
  have hroot : (n.row.parentID == 0 && n.row.taskLevel == 1) = true := by
    simp [h.1, h.2.1]
  rw [if_pos hroot]
  have hdeep : (n.subtasks.flatMap flattenL2).filter
      (fun x => x.parentID == 0 && x.taskLevel == 1) = [] := by
    rw [List.filter_flatMap]
    refine flatMap_eq_nil (fun s hs => ?_)
    rw [List.filter_eq_nil_iff]
    intro r hr
    have := flattenL2_level_ge (h.2.2.2.2.2 s hs) r hr
    simp only [Bool.and_eq_true, beq_iff_eq, not_and]
    omega
  rw [hdeep]

theorem filter2_flattenL2 {jp : String → Option JVal} {q : Nat} {s : L2Node}
    (h : WF2 jp q s) (pid : Nat) :
    (flattenL2 s).filter (fun x => x.parentID == pid && x.taskLevel == 2) =
      if q = pid then [s.row] else [] := by
  simp only [flattenL2, List.filter_cons]
  have hdeep : (s.actionItems.flatMap flattenL3).filter
      (fun x => x.parentID == pid && x.taskLevel == 2) = [] := by
    rw [List.filter_flatMap]
    refine flatMap_eq_nil (fun a ha => ?_)
    rw [List.filter_eq_nil_iff]
    intro r hr
    have := flattenL3_level_ge (h.2.2.2.2.2 a ha) r hr
    simp only [Bool.and_eq_true, beq_iff_eq, not_and]
    omega
  by_cases hc : q = pid
  · have hrow : (s.row.parentID == pid && s.row.taskLevel == 2) = true := by
      simp [h.2.1, h.1, hc]
    rw [if_pos hrow, hdeep, if_pos hc]
  · have hrow : (s.row.parentID == pid && s.row.taskLevel == 2) = false := by
      simp [h.2.1, h.1, hc]
    rw [if_neg (by simp [hrow]), hdeep, if_neg hc]

theorem filter2_flattenL1 {jp : String → Option JVal} {n : L1Node}
    (h : WF1 jp n) (pid : Nat) :
    (flattenL1 n).filter (fun x => x.parentID == pid && x.taskLevel == 2) =
      if n.row.id = pid then n.subtasks.map (fun s => s.row) else [] := by
  simp only [flattenL1, List.filter_cons]
  have hroot : (n.row.parentID == pid && n.row.taskLevel == 2) = false := by
    simp [h.1]
  rw [if_neg (by simp [hroot]), List.filter_flatMap]
  rw [flatMap_congr (fun s hs => filter2_flattenL2 (h.2.2.2.2.2 s hs) pid)]
  by_cases hc : n.row.id = pid
  · rw [if_pos hc]
    calc n.subtasks.flatMap (fun s => if n.row.id = pid then [s.row] else [])
        = n.subtasks.flatMap (fun s => [s.row]) :=
          flatMap_congr (fun s _ => by rw [if_pos hc])
      _ = n.subtasks.map (fun s => s.row) := flatMap_singleton_map _ _
  · rw [if_neg hc]
    exact flatMap_eq_nil (fun s _ => by rw [if_neg hc])

theorem filter3_flattenL3 {jp : String → Option JVal} {q : Nat} {a : L3Node}
    (h : WF3 jp q a) (pid : Nat) :
    (flattenL3 a).filter (fun x => x.parentID == pid && x.taskLevel == 3) =
      if q = pid then [a.row] else [] := by
  simp only [flattenL3, List.filter_cons]
  have hdeep : (a.subactionItems.flatMap flattenL4).filter
      (fun x => x.parentID == pid && x.taskLevel == 3) = [] := by
    rw [List.filter_flatMap]
    refine flatMap_eq_nil (fun c hc => ?_)
    rw [List.filter_eq_nil_iff]
    intro r hr
    have := flattenL4_level (h.2.2.2.2.2 c hc) r hr
    simp only [Bool.and_eq_true, beq_iff_eq, not_and]
    omega
  by_cases hc : q = pid
  · have hrow : (a.row.parentID == pid && a.row.taskLevel == 3) = true := by
      simp [h.2.1, h.1, hc]
    rw [if_pos hrow, hdeep, if_pos hc]
  · have hrow : (a.row.parentID == pid && a.row.taskLevel == 3) = false := by
      simp [h.2.1, h.1, hc]
    rw [if_neg (by simp [hrow]), hdeep, if_neg hc]

theorem filter3_flattenL2 {jp : String → Option JVal} {q : Nat} {s : L2Node}
    (h : WF2 jp q s) (pid : Nat) :
    (flattenL2 s).filter (fun x => x.parentID == pid && x.taskLevel == 3) =
      if s.row.id = pid then s.actionItems.map (fun a => a.row) else [] := by
  simp only [flattenL2, List.filter_cons]
  have hrow : (s.row.parentID == pid && s.row.taskLevel == 3) = false := by
    simp [h.1]
  rw [if_neg (by simp [hrow]), List.filter_flatMap]
  rw [flatMap_congr (fun a ha => filter3_flattenL3 (h.2.2.2.2.2 a ha) pid)]
  by_cases hc : s.row.id = pid
  · rw [if_pos hc]
    calc s.actionItems.flatMap (fun a => if s.row.id = pid then [a.row] else [])
        = s.actionItems.flatMap (fun a => [a.row]) :=
          flatMap_congr (fun a _ => by rw [if_pos hc])
      _ = s.actionItems.map (fun a => a.row) := flatMap_singleton_map _ _
  · rw [if_neg hc]
    exact flatMap_eq_nil (fun a _ => by rw [if_neg hc])

theorem filter3_flattenL1 {jp : String → Option JVal} {n : L1Node}
    (h : WF1 jp n) (pid : Nat) :
    (flattenL1 n).filter (fun x => x.parentID == pid && x.taskLevel == 3) =
      n.subtasks.flatMap (fun s =>
        if s.row.id = pid then s.actionItems.map (fun a => a.row) else []) := by
  simp only [flattenL1, List.filter_cons]
  have hroot : (n.row.parentID == pid && n.row.taskLevel == 3) = false := by
    simp [h.1]
  rw [if_neg (by simp [hroot]), List.filter_flatMap]
  exact flatMap_congr (fun s hs => filter3_flattenL2 (h.2.2.2.2.2 s hs) pid)

theorem filter4_flattenL4 {jp : String → Option JVal} {q : Nat} {c : L4Node}
    (h : WF4 jp q c) (pid : Nat) :
    (flattenL4 c).filter (fun x => x.parentID == pid && x.taskLevel == 4) =
      if q = pid then [c.row] else [] := by
  simp only [flattenL4, List.filter_cons, List.filter_nil]
  by_cases hc : q = pid
  · have hrow : (c.row.parentID == pid && c.row.taskLevel == 4) = true := by
      simp [h.2.1, h.1, hc]
    rw [if_pos hrow, if_pos hc]
  · have hrow : (c.row.parentID == pid && c.row.taskLevel == 4) = false := by
      simp [h.2.1, h.1, hc]
    rw [if_neg (by simp [hrow]), if_neg hc]

theorem filter4_flattenL3 {jp : String → Option JVal} {q : Nat} {a : L3Node}
    (h : WF3 jp q a) (pid : Nat) :
    (flattenL3 a).filter (fun x => x.parentID == pid && x.taskLevel == 4) =
      if a.row.id = pid then a.subactionItems.map (fun c => c.row) else [] := by
  simp only [flattenL3, List.filter_cons]
  have hrow : (a.row.parentID == pid && a.row.taskLevel == 4) = false := by
    simp [h.1]
  rw [if_neg (by simp [hrow]), List.filter_flatMap]
  rw [flatMap_congr (fun c hc => filter4_flattenL4 (h.2.2.2.2.2 c hc) pid)]
  by_cases hc : a.row.id = pid
  · rw [if_pos hc]
    calc a.subactionItems.flatMap (fun c => if a.row.id = pid then [c.row] else [])
        = a.subactionItems.flatMap (fun c => [c.row]) :=
          flatMap_congr (fun c _ => by rw [if_pos hc])
      _ = a.subactionItems.map (fun c => c.row) := flatMap_singleton_map _ _
  · rw [if_neg hc]
    exact flatMap_eq_nil (fun c _ => by rw [if_neg hc])

theorem filter4_flattenL2 {jp : String → Option JVal} {q : Nat} {s : L2Node}
    (h : WF2 jp q s) (pid : Nat) :
    (flattenL2 s).filter (fun x => x.parentID == pid && x.taskLevel == 4) =
      s.actionItems.flatMap (fun a =>
        if a.row.id = pid then a.subactionItems.map (fun c => c.row) else []) := by
  simp only [flattenL2, List.filter_cons]
  have hrow : (s.row.parentID == pid && s.row.taskLevel == 4) = false := by
    simp [h.1]
  rw [if_neg (by simp [hrow]), List.filter_flatMap]
  exact flatMap_congr (fun a ha => filter4_flattenL3 (h.2.2.2.2.2 a ha) pid)

theorem filter4_flattenL1 {jp : String → Option JVal} {n : L1Node}
    (h : WF1 jp n) (pid : Nat) :
    (flattenL1 n).filter (fun x => x.parentID == pid && x.taskLevel == 4) =
      n.subtasks.flatMap (fun s => s.actionItems.flatMap (fun a =>
        if a.row.id = pid then a.subactionItems.map (fun c => c.row) else [])) := by
  simp only [flattenL1, List.filter_cons]
  have hroot : (n.row.parentID == pid && n.row.taskLevel == 4) = false := by
    simp [h.1]
  rw [if_neg (by simp [hroot]), List.filter_flatMap]
  exact flatMap_congr (fun s hs => filter4_flattenL2 (h.2.2.2.2.2 s hs) pid)

/-- All level-2 nodes of a forest, in traversal order. -/
def allL2 (ts : List L1Node) : List L2Node := ts.flatMap (fun n => n.subtasks)

/-- All level-3 nodes of a forest, in traversal order. -/
def allL3 (ts : List L1Node) : List L3Node :=
  (allL2 ts).flatMap (fun s => s.actionItems)

theorem ids_forest_eq (ts : List L1Node) :
    (flattenForest ts).map (fun r => r.id) =
      ts.flatMap (fun n => (flattenL1 n).map (fun r => r.id)) := by
  simp [flattenForest, List.map_flatMap]

theorem roots_ids_sublist (ts : List L1Node) :
    List.Sublist (ts.map (fun n => n.row.id))
      ((flattenForest ts).map (fun r => r.id)) := by
  rw [ids_forest_eq]
  exact heads_sublist ts _ _ (fun n _ => ⟨_, rfl⟩)

theorem l2_ids_sublist (ts : List L1Node) :
    List.Sublist ((allL2 ts).map (fun s => s.row.id))
      ((flattenForest ts).map (fun r => r.id)) := by
  rw [ids_forest_eq, allL2, List.map_flatMap]
  refine flatMap_sublist (fun n _ => ?_)
  have hexp : (flattenL1 n).map (fun r => r.id) =
      n.row.id :: n.subtasks.flatMap (fun s => (flattenL2 s).map (fun r => r.id)) := by
    simp [flattenL1, List.map_flatMap]
  rw [hexp]
  exact List.Sublist.cons _ (heads_sublist _ _ _ (fun s _ => ⟨_, rfl⟩))

theorem l3_ids_sublist (ts : List L1Node) :
    List.Sublist ((allL3 ts).map (fun a => a.row.id))
      ((flattenForest ts).map (fun r => r.id)) := by
  rw [ids_forest_eq]
  have hexp0 : (allL3 ts).map (fun a => a.row.id) =
      ts.flatMap (fun n => n.subtasks.flatMap
        (fun s => s.actionItems.map (fun a => a.row.id))) := by
    rw [allL3, List.map_flatMap, allL2, List.flatMap_assoc]
  rw [hexp0]
  refine flatMap_sublist (fun n _ => ?_)
  have hexp : (flattenL1 n).map (fun r => r.id) =
      n.row.id :: n.subtasks.flatMap (fun s => (flattenL2 s).map (fun r => r.id)) := by
    simp [flattenL1, List.map_flatMap]
  rw [hexp]
  refine List.Sublist.cons _ (flatMap_sublist (fun s _ => ?_))
  have hexp2 : (flattenL2 s).map (fun r => r.id) =
      s.row.id :: s.actionItems.flatMap (fun a => (flattenL3 a).map (fun r => r.id)) := by
    simp [flattenL2, List.map_flatMap]
  rw [hexp2]
  exact List.Sublist.cons _ (heads_sublist _ _ _ (fun a _ => ⟨_, rfl⟩))

theorem filter1_forest {jp : String → Option JVal} {ts : List L1Node}
    (h : WFForest jp ts) :
    (flattenForest ts).filter (fun x => x.parentID == 0 && x.taskLevel == 1) =
      ts.map (fun n => n.row) := by
  rw [flattenForest, List.filter_flatMap,
    flatMap_congr (fun n hn => filter1_flattenL1 (h.1 n hn))]
  exact flatMap_singleton_map _ _

theorem filter2_forest {jp : String → Option JVal} {ts : List L1Node}
    (h : WFForest jp ts) {n : L1Node} (hn : n ∈ ts) :
    (flattenForest ts).filter
        (fun x => x.parentID == n.row.id && x.taskLevel == 2) =
      n.subtasks.map (fun s => s.row) := by
  rw [flattenForest, List.filter_flatMap,
    flatMap_congr (fun m hm => filter2_flattenL1 (h.1 m hm) n.row.id)]
  exact flatMap_single_key (fun m => m.row.id) (fun m => m.subtasks.map (fun s => s.row))
    ((roots_ids_sublist ts).nodup h.2) hn

theorem filter3_forest {jp : String → Option JVal} {ts : List L1Node}
    (h : WFForest jp ts) {s : L2Node} (hs : s ∈ allL2 ts) :
    (flattenForest ts).filter
        (fun x => x.parentID == s.row.id && x.taskLevel == 3) =
      s.actionItems.map (fun a => a.row) := by
  rw [flattenForest, List.filter_flatMap,
    flatMap_congr (fun m hm => filter3_flattenL1 (h.1 m hm) s.row.id),
    ← List.flatMap_assoc]
  exact flatMap_single_key (fun m => m.row.id)
    (fun m => m.actionItems.map (fun a => a.row))
    ((l2_ids_sublist ts).nodup h.2) hs

theorem filter4_forest {jp : String → Option JVal} {ts : List L1Node}
    (h : WFForest jp ts) {a : L3Node} (ha : a ∈ allL3 ts) :
    (flattenForest ts).filter
        (fun x => x.parentID == a.row.id && x.taskLevel == 4) =
      a.subactionItems.map (fun c => c.row) := by
  rw [flattenForest, List.filter_flatMap,
    flatMap_congr (fun m hm => filter4_flattenL1 (h.1 m hm) a.row.id),
    ← List.flatMap_assoc, ← List.flatMap_assoc]
  exact flatMap_single_key (fun m => m.row.id)
    (fun m => m.subactionItems.map (fun c => c.row))
    ((l3_ids_sublist ts).nodup h.2) ha

theorem map_eq_self {α : Type} {l : List α} {f : α → α}
    (h : ∀ x ∈ l, f x = x) : l.map f = l := by
  induction l with
  | nil => rfl
  | cons x xs ih =>
      rw [List.map_cons, h x (List.mem_cons_self x xs),
        ih (fun a ha => h a (List.mem_cons_of_mem x ha))]

theorem wf2_of_mem {jp : String → Option JVal} {ts : List L1Node}
    (h : ∀ n ∈ ts, WF1 jp n) {s : L2Node} (hs : s ∈ allL2 ts) :
    ∃ q, WF2 jp q s := by
  rcases List.mem_flatMap.mp hs with ⟨n, hn, hsn⟩
  exact ⟨n.row.id, (h n hn).2.2.2.2.2 s hsn⟩

theorem wf3_of_mem {jp : String → Option JVal} {ts : List L1Node}
    (h : ∀ n ∈ ts, WF1 jp n) {a : L3Node} (ha : a ∈ allL3 ts) :
    ∃ q, WF3 jp q a := by
  rcases List.mem_flatMap.mp ha with ⟨s, hs, has⟩
  rcases wf2_of_mem h hs with ⟨q, hws⟩
  exact ⟨s.row.id, hws.2.2.2.2.2 a has⟩

theorem build4_eq {jp : String → Option JVal} {ts : List L1Node}
    (h : WFForest jp ts) {a : L3Node} (ha : a ∈ allL3 ts) :
    buildTaskHierarchy4 jp (flattenForest ts) a.row.id = a.subactionItems := by
  obtain ⟨q, hwa⟩ := wf3_of_mem h.1 ha
  unfold buildTaskHierarchy4
  rw [filter4_forest h ha, List.map_map]
  refine map_eq_self (fun c hc => ?_)
  obtain ⟨hl, hp, hid, hep, hin⟩ := hwa.2.2.2.2.2 c hc
  cases c
  simp only at hid hep hin
  simp only [Function.comp_apply]
  rw [← hid, ← hep, ← hin]

theorem build3_eq {jp : String → Option JVal} {ts : List L1Node}
    (h : WFForest jp ts) {s : L2Node} (hs : s ∈ allL2 ts) :
    buildTaskHierarchy3 jp (flattenForest ts) s.row.id = s.actionItems := by
  obtain ⟨q, hws⟩ := wf2_of_mem h.1 hs
  unfold buildTaskHierarchy3
  rw [filter3_forest h hs, List.map_map]
  refine map_eq_self (fun a ha => ?_)
  have ha3 : a ∈ allL3 ts := List.mem_flatMap.mpr ⟨s, hs, ha⟩
  obtain ⟨hl, hp, hid, hep, hin, hch⟩ := hws.2.2.2.2.2 a ha
  have hb4 := build4_eq h ha3
  cases a
  simp only at hid hep hin hb4
  simp only [Function.comp_apply]
  rw [← hid, ← hep, ← hin, hb4]

theorem build2_eq {jp : String → Option JVal} {ts : List L1Node}
    (h : WFForest jp ts) {n : L1Node} (hn : n ∈ ts) :
    buildTaskHierarchy2 jp (flattenForest ts) n.row.id = n.subtasks := by
  unfold buildTaskHierarchy2
  rw [filter2_forest h hn, List.map_map]
  refine map_eq_self (fun s hs => ?_)
  have hs2 : s ∈ allL2 ts := List.mem_flatMap.mpr ⟨n, hn, hs⟩
  obtain ⟨hl, hp, hid, hep, hin, hch⟩ := (h.1 n hn).2.2.2.2.2 s hs
  have hb3 := build3_eq h hs2
  cases s
  simp only at hid hep hin hb3
  simp only [Function.comp_apply]
  rw [← hid, ← hep, ← hin, hb3]

/-- C5: rebuilding the flattened rows of a well-formed 4-level task forest
with `buildTaskHierarchy` (its default `(parentId, level) = (0, 1)` entry
point, grouping rows by `(parentID, taskLevel)` and recursing with
`(task.id, level + 1)`, children under `subtasks`, `actionItems`,
`subactionItems`) returns the original forest:
`buildTree(flatten(tree)) == tree`. -/
theorem buildTaskHierarchy_flattenForest {jp : String → Option JVal}
    {ts : List L1Node} (h : WFForest jp ts) :
    buildTaskHierarchy jp (flattenForest ts) = ts := by
  unfold buildTaskHierarchy
  rw [filter1_forest h, List.map_map]
  refine map_eq_self (fun n hn => ?_)
  obtain ⟨hl, hp, hid, hep, hin, hch⟩ := h.1 n hn
  have hb2 := build2_eq h hn
  cases n
  simp only at hid hep hin hb2
  simp only [Function.comp_apply]
  rw [← hid, ← hep, ← hin, hb2]

/-- The parser of the C5 witness: inverse of the stored forms used there. -/
def c5Parse : String → Option JVal :=
  fun s => if s = "[]" then some (.arr [])
           else if s = "{}" then some (.obj []) else none

/-- Level-1 row of the C5 witness chain. -/
def c5r1 : Row :=
  { id := 1, projectID := 1, name := "t1", taskLevel := 1, status := "todo"
    parentID := 0, level1ID := 1, level2ID := 0, level3ID := 0, level4ID := 0
    estHours := 0, estPrevHours := .jstr "[]", actHours := 0
    info := .jstr "{}" }

/-- Level-2 row of the C5 witness chain. -/
def c5r2 : Row :=
  { id := 2, projectID := 1, name := "t2", taskLevel := 2, status := "todo"
    parentID := 1, level1ID := 1, level2ID := 2, level3ID := 0, level4ID := 0
    estHours := 0, estPrevHours := .jstr "[]", actHours := 0
    info := .jstr "{}" }

/-- Level-3 row of the C5 witness chain. -/
def c5r3 : Row :=
  { id := 3, projectID := 1, name := "t3", taskLevel := 3, status := "todo"
    parentID := 2, level1ID := 1, level2ID := 2, level3ID := 3, level4ID := 0
    estHours := 0, estPrevHours := .jstr "[]", actHours := 0
    info := .jstr "{}" }

/-- Level-4 row of the C5 witness chain. -/
def c5r4 : Row :=
  { id := 4, projectID := 1, name := "t4", taskLevel := 4, status := "todo"
    parentID := 3, level1ID := 1, level2ID := 2, level3ID := 3, level4ID := 4
    estHours := 0, estPrevHours := .jstr "[]", actHours := 0
    info := .jstr "{}" }

/-- The decoded 4-level chain of the C5 witness. -/
def c5n4 : L4Node := ⟨c5r4, "4", .arr [], .obj []⟩

/-- Level-3 node of the C5 witness. -/
def c5n3 : L3Node := ⟨c5r3, "3", .arr [], .obj [], [c5n4]⟩

/-- Level-2 node of the C5 witness. -/
def c5n2 : L2Node := ⟨c5r2, "2", .arr [], .obj [], [c5n3]⟩

/-- Level-1 node of the C5 witness. -/
def c5n1 : L1Node := ⟨c5r1, "1", .arr [], .obj [], [c5n2]⟩

theorem c5_wf : WFForest c5Parse [c5n1] := by
  have hw4 : WF4 c5Parse 3 c5n4 := ⟨rfl, rfl, rfl, rfl, rfl⟩
  have hw3 : WF3 c5Parse 2 c5n3 := by
    refine ⟨rfl, rfl, rfl, rfl, rfl, ?_⟩
    intro c hc
    rw [List.mem_singleton.mp hc]
    exact hw4
  have hw2 : WF2 c5Parse 1 c5n2 := by
    refine ⟨rfl, rfl, rfl, rfl, rfl, ?_⟩
    intro a ha
    rw [List.mem_singleton.mp ha]
    exact hw3
  have hw1 : WF1 c5Parse c5n1 := by
    refine ⟨rfl, rfl, rfl, rfl, rfl, ?_⟩
    intro s hs
    rw [List.mem_singleton.mp hs]
    exact hw2
  refine ⟨?_, by decide⟩
  intro n hn
  rw [List.mem_singleton.mp hn]
  exact hw1

/-- Witness for C5: the concrete 4-level chain flattens to its four rows and
rebuilds to itself. -/
theorem buildTaskHierarchy_flattenForest_witness :
    buildTaskHierarchy c5Parse (flattenForest [c5n1]) = [c5n1] :=
  buildTaskHierarchy_flattenForest c5_wf
